import Mathlib

/- Verification development for the ema_scrapper repository.

   The repository scrapes pharmaceutical registries (AIFA/Italy, RPL/Poland):
   it drives a browser through search results, opens detail pages, downloads
   leaflet PDFs and extracts the marketing-authorisation holder and the
   manufacturer by regular expressions and label-proximity heuristics.

   This file gives a shallow embedding of the core logic checked here:
   - Python string primitives over the character-list representation;
   - a tiny regular-expression engine covering exactly the constructs the
     repository's patterns use, with Python backtracking preference order;
   - the PDF field extractors of src/src/pdf_utils.py,
     src/src/aifa_scraper.py, src/src/aifa_scrapper_v2.py and src/index1.py;
   - the label-proximity extractors of src/src/rpl_poland.py and
     src/src/dummy_rpl_html.py over pre-resolved DOM query results;
   - the result-traversal loops of src/index1.py and
     src/src/aifa_scrapper_v2.py and the pagination loop of
     src/src/rpl_poland.py / src/src/dummy_rpl_html.py.

   Browser and PDF-to-text capabilities are external collaborators: their
   responses (element lists, attribute values, extracted text) are inputs to
   the embedded functions, exactly as the source receives them. -/

/-! ## Python string primitives (character-list level) -/

/-- Python whitespace characters in the ASCII range, as used by str.strip,
str.split with no argument, and the whitespace regex class. -/
def isPySpace (c : Char) : Bool :=
  c == ' ' || c == '\t' || c == '\n' || c == '\r' || c == '\x0b' || c == '\x0c'

/-- Python str.strip over a character list: drop leading and trailing
whitespace. -/
def stripChars (l : List Char) : List Char :=
  ((l.dropWhile isPySpace).reverse.dropWhile isPySpace).reverse

/-- Python str.strip. -/
def pyStrip (s : String) : String := ⟨stripChars s.data⟩

/-- Python str.lower for the ASCII letters (the only case mapping exercised by
the texts handled here). -/
def pyLower (s : String) : String := ⟨s.data.map Char.toLower⟩

/-- True when nd occurs contiguously inside the list (Python's `in` for
strings); the empty needle occurs in everything. -/
def subList (nd : List Char) : List Char → Bool
  | [] => nd.isEmpty
  | c :: t => nd.isPrefixOf (c :: t) || subList nd t

/-- Python's `nd in hay` substring test. -/
def strContains (hay nd : String) : Bool := subList nd.data hay.data

/-- Python str.split with a one-character separator (keeps empty pieces). -/
def splitOnChar (sep : Char) : List Char → List (List Char)
  | [] => [[]]
  | c :: t =>
    let r := splitOnChar sep t
    if c == sep then [] :: r
    else
      match r with
      | h :: t2 => (c :: h) :: t2
      | [] => [[c]]

/-- Python str.split with a one-character separator, at String type. -/
def pySplitChar (sep : Char) (s : String) : List String :=
  (splitOnChar sep s.data).map String.mk

/-- Python str.splitlines restricted to the newline separator (the only line
break occurring in the texts handled here): like splitting on newline but
without a trailing empty piece. -/
def pySplitlines (s : String) : List String :=
  let parts := splitOnChar '\n' s.data
  let parts := if parts.getLast? == some [] then parts.dropLast else parts
  parts.map String.mk

/-- Worker for the leftmost non-overlapping delete-all: while skip is
positive the character belongs to an already matched occurrence and is
dropped; at zero a fresh occurrence of nd starting here is deleted by
skipping its remaining characters, otherwise the character is kept. -/
def removeAllAux (nd : List Char) : List Char → Nat → List Char
  | [], _ => []
  | c :: t, skip =>
    match skip with
    | k + 1 => removeAllAux nd t k
    | 0 =>
      if nd ≠ [] ∧ nd.isPrefixOf (c :: t) then removeAllAux nd t (nd.length - 1)
      else c :: removeAllAux nd t 0

/-- Python str.replace with the empty replacement: delete every leftmost,
non-overlapping occurrence of nd. For the empty nd the input is returned
unchanged (the source never replaces an empty pattern). -/
def removeAllChars (nd : List Char) (l : List Char) : List Char :=
  removeAllAux nd l 0

/-- Python hay.replace(nd, the empty string). -/
def pyRemove (hay nd : String) : String := ⟨removeAllChars nd.data hay.data⟩

/-- Python sep.join(xs). -/
def pyJoin (sep : String) (xs : List String) : String :=
  ⟨List.intercalate sep.data (xs.map String.data)⟩

/-- Worker for whitespace splitting: cur is the current run of non-space
characters read so far, in reverse. -/
def splitWSAux : List Char → List Char → List (List Char)
  | [], cur => if cur.isEmpty then [] else [cur.reverse]
  | c :: t, cur =>
    if isPySpace c then
      if cur.isEmpty then splitWSAux t [] else cur.reverse :: splitWSAux t []
    else splitWSAux t (c :: cur)

/-- Maximal runs of non-whitespace characters, in order (Python str.split with
no argument, which drops empty pieces). -/
def splitWSList (l : List Char) : List (List Char) := splitWSAux l []

/-- Python str.split with no argument. -/
def pySplitWS (s : String) : List String := (splitWSList s.data).map String.mk

/-- The idiom that joins str.split() with a single blank: collapse every
whitespace run to one space and drop outer whitespace. -/
def wsCollapse (s : String) : String := pyJoin " " (pySplitWS s)

/-- Characters after the first colon (Python s.split with a colon and maxsplit
one, taking the second piece; the source only calls it when a colon occurs). -/
def afterColonChars : List Char → List Char
  | [] => []
  | c :: t => if c == ':' then t else afterColonChars t

/-- Python s.split(colon, 1)[1]. -/
def afterFirstColon (s : String) : String := ⟨afterColonChars s.data⟩

/-- Python truthiness of an optional string: a present, non-empty string. -/
def optTruthy : Option String → Bool
  | none => false
  | some s => !s.data.isEmpty

/-- Keep the first occurrence of every string, in first-seen order (the
source's membership-test-and-append loop). -/
def dedupFirstSeen (l : List String) : List String :=
  l.foldl (fun acc v => if acc.contains v then acc else acc ++ [v]) []

/-! ## A tiny regular-expression engine

Covers exactly the constructs the repository's patterns use: character
classes, literals, alternation, greedy optionals, greedy and lazy counted
repetition of a character class, numbered capture groups, and the MULTILINE
end anchor. Matching returns every way the expression can consume a prefix of
the input, in Python backtracking preference order, so the head of the list
is the match Python's re module would select at that start position. -/

inductive RE where
  | eps : RE
  | cls : (Char → Bool) → RE
  | cat : RE → RE → RE
  | alt : RE → RE → RE
  | opt : RE → RE
  | rep : (Char → Bool) → Nat → Option Nat → Bool → RE
  | grp : Nat → RE → RE
  | eol : RE

/-- Captured groups of one match: group number paired with captured text. -/
abbrev Caps := List (Nat × String)

/-- The text a submatch consumed: the prefix of s that is gone in rest. -/
def capOf (s rest : List Char) : String := ⟨s.take (s.length - rest.length)⟩

/-- Candidate repetition counts between lo and the bound, ordered descending
for a greedy repetition and ascending for a lazy one, capped by the longest
run mx the input allows. -/
def repCounts (lo : Nat) (hi : Option Nat) (lzy : Bool) (mx : Nat) : List Nat :=
  let top := match hi with | none => mx | some h => min h mx
  if lo > top then []
  else
    let ks := (List.range (top + 1 - lo)).map (fun j => lo + j)
    if lzy then ks else ks.reverse

/-- All ways r can match a prefix of the input, each as the remaining suffix
plus the captures made, in Python backtracking preference order. -/
def reMs : RE → List Char → List (List Char × Caps)
  | .eps, s => [(s, [])]
  | .cls p, s =>
    match s with
    | [] => []
    | c :: t => if p c then [(t, [])] else []
  | .cat a b, s =>
    (reMs a s).flatMap (fun xa => (reMs b xa.1).map (fun xb => (xb.1, xa.2 ++ xb.2)))
  | .alt a b, s => reMs a s ++ reMs b s
  | .opt a, s => reMs a s ++ [(s, [])]
  | .rep p lo hi lzy, s =>
    (repCounts lo hi lzy (s.takeWhile p).length).map (fun k => (s.drop k, []))
  | .grp i a, s =>
    (reMs a s).map (fun xa => (xa.1, xa.2 ++ [(i, capOf s xa.1)]))
  | .eol, s =>
    match s with
    | [] => [([], [])]
    | c :: t => if c == '\n' then [(c :: t, [])] else []

/-- Python re.search: try every start position left to right and take the
preferred match at the first position that has one; gives its captures. -/
def reSearch (r : RE) : List Char → Option Caps
  | [] =>
    match reMs r [] with
    | x :: _ => some x.2
    | [] => none
  | c :: t =>
    match reMs r (c :: t) with
    | x :: _ => some x.2
    | [] => reSearch r t

/-- Python match.group(i) for the patterns here (each group captures at most
once per match); the empty string when the group is absent. -/
def getGrp (caps : Caps) (i : Nat) : String :=
  match caps.find? (fun x => x.1 == i) with
  | some x => x.2
  | none => ""

/-- Case-insensitive single-character comparison (re.IGNORECASE on ASCII). -/
def ciIs (c x : Char) : Bool := x.toLower == c.toLower

/-- Case-insensitive literal. -/
def litCI (s : String) : RE :=
  s.data.foldr (fun c acc => RE.cat (RE.cls (ciIs c)) acc) RE.eps

/-- Case-sensitive literal. -/
def litCS (s : String) : RE :=
  s.data.foldr (fun c acc => RE.cat (RE.cls (fun x => x == c)) acc) RE.eps

/-- The regex dot and the negated-newline class: anything but a newline. -/
def nonNl (c : Char) : Bool := c != '\n'

/-- The class of a whole-alphabet repetition (regex whitespace or
non-whitespace): any character. -/
def anyCh (_ : Char) : Bool := true

/-- The class holding a colon or regex whitespace. -/
def colonOrSpace (c : Char) : Bool := c == ':' || isPySpace c

/-- The upper-alpha class under re.IGNORECASE: any ASCII letter. -/
def asciiLetter (c : Char) : Bool := c.isAlpha

/-- The upper-alpha class, case sensitive. -/
def asciiUpper (c : Char) : Bool := c.isUpper

/-- The class of the aifa_scraper fallback captures: word characters, blank
and the listed punctuation. -/
def wordish (c : Char) : Bool :=
  c.isAlphanum || c == '_' || c == ' ' || c == '-' || c == ',' || c == '&' ||
    c == '.' || c == '(' || c == ')' || c == '/'

/-- First-match-wins scan of an ordered pattern list: search each pattern in
turn and post-process group gi of the first pattern that matches anywhere
(the break-on-first-match loops of the PDF extractors). -/
def firstCapture (post : String → String) (pats : List RE) (gi : Nat)
    (text : String) : Option String :=
  match pats with
  | [] => none
  | p :: rest =>
    match reSearch p text.data with
    | some caps => some (post (getGrp caps gi))
    | none => firstCapture post rest gi text

/-! ## PDF field extractor of src/src/pdf_utils.py -/

/-- Common pattern shape LABEL, then a colon-or-whitespace run, then one
captured line of at least two and at most maxLen non-newline characters. -/
def labelPat (label : String) (maxLen : Nat) : RE :=
  .cat (litCI label)
    (.cat (.rep colonOrSpace 0 none false) (.grp 1 (.rep nonNl 2 (some maxLen) false)))

namespace PdfUtils

/-- Second pattern of patterns_mah: the label written with unescaped dots, so
the two inner dots match any non-newline character, and an escaped final
dot. -/
def reMah2 : RE :=
  .cat (litCI "Titolare A")
    (.cat (.cls nonNl)
      (.cat (litCI "I")
        (.cat (.cls nonNl)
          (.cat (litCI "C")
            (.cat (litCI ".")
              (.cat (.rep colonOrSpace 0 none false)
                (.grp 1 (.rep nonNl 2 (some 200) false))))))))

/-- Third pattern of patterns_mah: Titolare, an optional del, then either a
blank and AIC or the dotted abbreviation, then the captured line. -/
def reMah3 : RE :=
  .cat (litCI "Titolare")
    (.cat (.opt (litCI " del"))
      (.cat (.alt (litCI " AIC") (litCI "A.I.C."))
        (.cat (.rep colonOrSpace 0 none false)
          (.grp 1 (.rep nonNl 2 (some 200) false)))))

/-- Fourth pattern of patterns_mah: Titolare, a greedy non-newline run, a
colon-or-whitespace run, then a captured letter followed by five to two
hundred non-newline characters (letter class widened by re.IGNORECASE). -/
def reMah4 : RE :=
  .cat (litCI "Titolare")
    (.cat (.rep nonNl 0 none false)
      (.cat (.rep colonOrSpace 0 none false)
        (.grp 1 (.cat (.cls asciiLetter) (.rep nonNl 5 (some 200) false)))))

/-- patterns_mah of pdf_utils.extract_from_pdf, in source order. -/
def patterns_mah : List RE :=
  [labelPat "Marketing Authorisation Holder" 200, reMah2, reMah3, reMah4]

/-- patterns_man of pdf_utils.extract_from_pdf, in source order. -/
def patterns_man : List RE :=
  [labelPat "Manufacturer" 200, labelPat "Producer" 200,
   labelPat "Producent" 200, labelPat "Produttore" 200]

/-- The dictionary pdf_utils.extract_from_pdf returns. -/
structure PdfFields where
  mah : Option String
  manufacturer : Option String
deriving DecidableEq

/-- pdf_utils.extract_from_pdf on the text the external PDF-to-text
capability produced: first matching pattern wins per field, its group 1
stripped; None when no pattern of that field matches. -/
def extract_from_pdf (text : String) : PdfFields :=
  { mah := firstCapture pyStrip patterns_mah 1 text,
    manufacturer := firstCapture pyStrip patterns_man 1 text }

end PdfUtils

/-! ## PDF field extractor of src/src/aifa_scraper.py -/

namespace AifaScraper

/-- mah_patterns of extract_ma_and_manufacturer_from_pdf, in source order. -/
def mah_patterns : List RE :=
  [labelPat "Marketing Authorisation Holder" 300,
   labelPat "Marketing Authorisation Holder (MAH)" 300,
   labelPat "Titolare A.I.C." 300,
   .cat (litCI "Titolare")
     (.cat (.opt (litCI " del"))
       (.cat (.alt (litCI " AIC") (litCI "A.I.C."))
         (.cat (.rep colonOrSpace 0 none false)
           (.grp 1 (.rep nonNl 2 (some 300) false))))),
   labelPat "Titolare" 300,
   labelPat "Possessore dell\x27autorizzazione" 300]

/-- manu_patterns of extract_ma_and_manufacturer_from_pdf, in source order;
the second pattern has a greedy parenthesised wildcard between the label and
the colon run, and the last label carries the mojibake spelling that is
literal in the source. -/
def manu_patterns : List RE :=
  [labelPat "Manufacturer" 300,
   .cat (litCI "Manufacturer (")
     (.cat (.rep nonNl 0 none false)
       (.cat (litCI ")")
         (.cat (.rep colonOrSpace 0 none false)
           (.grp 1 (.rep nonNl 2 (some 300) false))))),
   labelPat "Produttore" 300,
   labelPat "Producent" 300,
   labelPat "WytwÃ³rca" 300]

/-- Case-sensitive fallback for the MA holder: Titolare, a lazy non-newline
run, then a captured uppercase letter followed by five to two hundred wordish
characters. -/
def mah_fallback : RE :=
  .cat (litCS "Titolare")
    (.cat (.rep nonNl 0 none true)
      (.grp 1 (.cat (.cls asciiUpper) (.rep wordish 5 (some 200) false))))

/-- Case-sensitive fallback for the manufacturer, same shape under the
Produttore label. -/
def manu_fallback : RE :=
  .cat (litCS "Produttore")
    (.cat (.rep nonNl 0 none true)
      (.grp 1 (.cat (.cls asciiUpper) (.rep wordish 5 (some 200) false))))

/-- Python falsiness of the intermediate value: absent or empty. -/
def optFalsy (o : Option String) : Bool := !optTruthy o

/-- One field of extract_ma_and_manufacturer_from_pdf: the first matching
primary pattern's stripped group 1; when that is falsy, the case-sensitive
fallback's stripped group 1, keeping the primary value when the fallback does
not match either. -/
def fieldWithFallback (pats : List RE) (fb : RE) (text : String) : Option String :=
  if optFalsy (firstCapture pyStrip pats 1 text) then
    match reSearch fb text.data with
    | some caps => some (pyStrip (getGrp caps 1))
    | none => firstCapture pyStrip pats 1 text
  else firstCapture pyStrip pats 1 text

/-- aifa_scraper.extract_ma_and_manufacturer_from_pdf on the extracted text:
short texts yield nothing; otherwise each field is the primary-then-fallback
scan over its own pattern lists. -/
def extract_ma_and_manufacturer_from_pdf (text : String) :
    Option String × Option String :=
  if text.data.isEmpty || text.data.length < 10 then (none, none)
  else (fieldWithFallback mah_patterns mah_fallback text,
        fieldWithFallback manu_patterns manu_fallback text)

end AifaScraper

/-! ## PDF field extractor of src/index1.py (extract_details_from_pdf) -/

namespace Index1

/-- ma_pattern of extract_details_from_pdf: group 1 is the label alternation,
group 2 lazily captures anything up to a blank line, a Produttore line, the
confection-content section header, or the MULTILINE end anchor. -/
def ma_pattern : RE :=
  .cat (.grp 1 (.alt (litCI "Titolare dell\x27autorizzazione all\x27immissione in commercio")
                     (litCI "Titolare AIC")))
    (.cat (.opt (litCS ":"))
      (.cat (.rep isPySpace 0 none false)
        (.cat (.grp 2 (.rep anyCh 0 none true))
          (.alt (litCI "\n\n")
            (.alt (litCI "\nProduttore")
              (.alt (.cat (litCI "\n6.")
                      (.cat (.rep isPySpace 0 none false)
                        (litCI "Contenuto della confezione")))
                .eol))))))

/-- mfg_pattern of extract_details_from_pdf, with the analogous terminators. -/
def mfg_pattern : RE :=
  .cat (.grp 1 (.alt (litCI "Produttore")
                     (litCI "Produttore responsabile del rilascio dei lotti")))
    (.cat (.opt (litCS ":"))
      (.cat (.rep isPySpace 0 none false)
        (.cat (.grp 2 (.rep anyCh 0 none true))
          (.alt (litCI "\n\n")
            (.alt (litCI "\nTitolare")
              (.alt (litCI "\nQuesto foglio illustrativo") .eol))))))

/-- The generator-with-default idiom of extract_details_from_pdf: the first
line that is non-blank after stripping and does not contain the label word,
stripped; the not-found marker when no line qualifies. -/
def firstNonLabelLine (lines : List String) (label : String) : String :=
  match lines.find? (fun line => !(pyStrip line).data.isEmpty && !strContains line label) with
  | some line => pyStrip line
  | none => "Not Found"

/-- The regex-and-line-filter body of index1.extract_details_from_pdf, applied
to the full text that the external pdfplumber capability assembled (the
function's try block around PDF parsing is modelled at the call site). -/
def extract_details_from_text (full_text : String) : String × String :=
  let ma_holder :=
    match reSearch ma_pattern full_text.data with
    | some caps => firstNonLabelLine (pySplitChar '\n' (pyStrip (getGrp caps 2))) "Titolare"
    | none => "Not Found"
  let manufacturer :=
    match reSearch mfg_pattern full_text.data with
    | some caps => firstNonLabelLine (pySplitChar '\n' (pyStrip (getGrp caps 2))) "Produttore"
    | none => "Not Found"
  (ma_holder, manufacturer)

end Index1

/-! ## PDF and detail-page extractors of src/src/aifa_scrapper_v2.py -/

namespace AifaV2

/-- Pattern shape of the v2 extractors over page HTML: LABEL, colon or
whitespace, then a captured run of at least lo and at most maxLen characters
that are neither newline nor an opening angle bracket. -/
def labelPatHtml (label : String) (lo maxLen : Nat) : RE :=
  .cat (litCI label)
    (.cat (.rep colonOrSpace 0 none false)
      (.grp 1 (.rep (fun c => c != '\n' && c != '<') lo (some maxLen) false)))

/-- p_mah of aifa_scrapper_v2.extract_from_pdf, in source order. -/
def p_mah : List RE :=
  [labelPat "Azienda titolare" 300, labelPat "Titolare" 300,
   labelPat "Marketing Authorisation Holder" 300]

/-- p_manu of aifa_scrapper_v2.extract_from_pdf, in source order (the last
label carries the mojibake spelling literal in the source). -/
def p_manu : List RE :=
  [labelPat "Produttore" 300, labelPat "Manufacturer" 300,
   labelPat "WytwÃ³rca" 300]

/-- aifa_scrapper_v2.extract_from_pdf on the extracted text: short texts give
nothing, otherwise first matching pattern per field, its group 1 stripped and
whitespace-collapsed. -/
def extract_from_pdf (text : String) : Option String × Option String :=
  if text.data.isEmpty || text.data.length < 10 then (none, none)
  else (firstCapture (fun g => wsCollapse (pyStrip g)) p_mah 1 text,
        firstCapture (fun g => wsCollapse (pyStrip g)) p_manu 1 text)

/-- aifa_scrapper_v2.extract_ma_holder_from_detail on the page HTML: the
Azienda titolare scan, then the Pharmaceutical Company scan, captures
whitespace-collapsed; None when neither matches. -/
def extract_ma_holder_from_detail (html : String) : Option String :=
  match reSearch (labelPatHtml "Azienda titolare" 3 300) html.data with
  | some caps => some (wsCollapse (pyStrip (getGrp caps 1)))
  | none =>
    match reSearch (labelPatHtml "Pharmaceutical Company" 3 300) html.data with
    | some caps => some (wsCollapse (pyStrip (getGrp caps 1)))
    | none => none

/-- The manufacturer accumulation over the downloaded PDFs' texts inside
iterate_results_and_scrape: each PDF is parsed and a truthy manufacturer is
kept only when none was kept before. -/
def manufacturerFromPdfs (pdfTexts : List String) : Option String :=
  pdfTexts.foldl
    (fun acc t =>
      let manu := (extract_from_pdf t).2
      if optTruthy manu && !optTruthy acc then manu else acc)
    none

/-- The page-HTML Produttore fallback scan of iterate_results_and_scrape. -/
def produttoreFromHtml (html : String) : Option String :=
  match reSearch (labelPatHtml "Produttore" 3 200) html.data with
  | some caps => some (wsCollapse (pyStrip (getGrp caps 1)))
  | none => none

/-- The per-item field computation of iterate_results_and_scrape: the MA
holder comes from the detail-page HTML only, and the manufacturer from the
downloaded PDFs first, falling back to the page-HTML Produttore scan when no
PDF yielded a truthy value. -/
def item_fields (pageHtml : String) (pdfTexts : List String) :
    Option String × Option String :=
  let ma_holder := extract_ma_holder_from_detail pageHtml
  let manufacturer := manufacturerFromPdfs pdfTexts
  let manufacturer :=
    if !optTruthy manufacturer then
      match produttoreFromHtml pageHtml with
      | some v => some v
      | none => manufacturer
    else manufacturer
  (ma_holder, manufacturer)

end AifaV2

/-! ## Result traversal loop of src/index1.py (run_scraper_for_substance)

The browsing session is the external collaborator: what the page would
answer at loop index idx is an input. enum idx is the length of the freshly
re-enumerated visible-card list at iteration idx; the remaining per-item
answers live in ItemEnv. -/

namespace Index1

/-- The browser session's answers for the item at one loop index. -/
structure ItemEnv where
  clickOk : Bool
  detailReady : Bool
  h1Visible : Bool
  h1Text : String
  ownerVisible : Bool
  ownerText : String
  pdfBtnVisible : Bool
  pdfDownloadOk : Bool
  pdfParseOk : Bool
  pdfErr : String
  pdfText : String

/-- One appended dictionary of all_results. -/
structure ResultRow where
  search_substance : String
  product_name : String
  ma_holder : String
  manufacturer : String
  pdf_file : String
deriving DecidableEq

/-- The ma_holder_html computation at the detail page: the owner paragraph's
text after its first colon, stripped, when it has a colon; the raw text when
it has none; the not-found marker when the paragraph is not visible. -/
def html_ma_holder (env : ItemEnv) : String :=
  if env.ownerVisible then
    if strContains env.ownerText ":" then pyStrip (afterFirstColon env.ownerText)
    else env.ownerText
  else "Not Found"

/-- The filename given to a downloaded PDF: substance, underscore, one-based
index, the pdf extension, blanks replaced by underscores. -/
def safeFilename (substance : String) (idx : Nat) : String :=
  ⟨(substance ++ "_" ++ toString (idx + 1) ++ ".pdf").data.map
    (fun c => if c == ' ' then '_' else c)⟩

/-- The PDF branch of the loop body: filename, PDF-derived MA holder and
PDF-derived manufacturer. It sees only the PDF-related session answers, so
the manufacturer column cannot depend on the detail page's HTML. A parse
failure inside extract_details_from_pdf is caught there and reported as a
pair of error strings; a missing button or failed download leaves the
markers in place. -/
def pdf_side (pdfBtnVisible pdfDownloadOk pdfParseOk : Bool)
    (pdfErr pdfText : String) (substance : String) (idx : Nat) :
    String × String × String :=
  if pdfBtnVisible then
    if pdfDownloadOk then
      let fn := safeFilename substance idx
      if pdfParseOk then
        let r := extract_details_from_text pdfText
        (fn, r.1, r.2)
      else (fn, "Error: " ++ pdfErr, "Error: " ++ pdfErr)
    else ("Not Found", "Not Found in PDF", "Not Found in PDF")
  else ("Not Found", "Not Found in PDF", "Not Found in PDF")

/-- The loop body of run_scraper_for_substance for one index, after the
shrink check: None when the card click fails or the detail page never
reports ready (the loop continues); otherwise the appended row, whose MA
holder is the HTML value unless that is the not-found marker, in which case
the PDF-side value, and whose manufacturer is always the PDF-side value. -/
def processItem (substance : String) (idx : Nat) (env : ItemEnv) :
    Option ResultRow :=
  if !env.clickOk then none
  else if !env.detailReady then none
  else
    let product_name := if env.h1Visible then pyStrip env.h1Text else "(no name)"
    let ma_holder_html := html_ma_holder env
    let pdfr := pdf_side env.pdfBtnVisible env.pdfDownloadOk env.pdfParseOk
      env.pdfErr env.pdfText substance idx
    let final_ma := if ma_holder_html != "Not Found" then ma_holder_html else pdfr.2.1
    some { search_substance := substance, product_name := product_name,
           ma_holder := final_ma, manufacturer := pdfr.2.2, pdf_file := pdfr.1 }

/-- The for-loop of run_scraper_for_substance: rem indices remain of the
initial range; at each index the cards are re-enumerated, and the loop breaks
when the index is no longer below the fresh count. Rows are tagged with the
loop index that appended them, bookkeeping used only to state traversal
claims. -/
def run_scraper_loop (substance : String) (enum : Nat → Nat)
    (envs : Nat → ItemEnv) : Nat → Nat → List (Nat × ResultRow)
  | 0, _ => []
  | rem + 1, idx =>
    if idx < enum idx then
      (match processItem substance idx (envs idx) with
       | some row => [(idx, row)]
       | none => []) ++ run_scraper_loop substance enum envs rem (idx + 1)
    else []

/-- run_scraper_for_substance for one substance whose initial enumeration
counted total cards: the loop from index zero with total iterations. -/
def run_scraper_rows (substance : String) (enum : Nat → Nat)
    (envs : Nat → ItemEnv) (total : Nat) : List (Nat × ResultRow) :=
  run_scraper_loop substance enum envs total 0

/-- The indices the same for-loop visits, that is reaches and passes the
shrink check at: the loop body runs for them whether or not a row results. -/
def run_scraper_visited (enum : Nat → Nat) : Nat → Nat → List Nat
  | 0, _ => []
  | rem + 1, idx =>
    if idx < enum idx then idx :: run_scraper_visited enum rem (idx + 1)
    else []

end Index1

/-! ## Result traversal loop of src/src/aifa_scrapper_v2.py
(iterate_results_and_scrape) -/

namespace AifaV2

/-- The indices the while-true loop of iterate_results_and_scrape visits.
Each iteration re-queries the cards and breaks when the list is empty or the
index is no longer below its length; a failed card click skips to the next
index without the go-back step, and a failed go-back breaks after the item.
The loop has no intrinsic bound, so fuel bounds the recursion; a run that
stops by itself gives the same answer for every sufficient fuel. -/
def iterate_visited (enum : Nat → Nat) (clickOkF goBackOkF : Nat → Bool) :
    Nat → Nat → List Nat
  | 0, _ => []
  | fuel + 1, idx =>
    if idx < enum idx then
      idx ::
        (if !clickOkF idx || goBackOkF idx then
          iterate_visited enum clickOkF goBackOkF fuel (idx + 1)
         else [])
    else []

end AifaV2

/-! ## Pagination of src/src/rpl_poland.py (run_scrape) and
src/src/dummy_rpl_html.py (scrape)

Both scripts end each page with the same tail: locate a next control, break
when it is absent, break when it reports disabled by class, aria attribute or
disabled attribute, break when clicking it fails twice, and break when an
optional maximum page count is set, non-zero and exceeded by the incremented
page index. -/

namespace Rpl

/-- The next control's attributes as the browsing session reports them. -/
structure NextBtn where
  cls : Option String
  aria : Option String
  disabledAttr : Option String

/-- What the session answers at one page: the resolved next control, if any
selector found one, and whether clicking it succeeds. -/
structure PageEnv where
  nextBtn : Option NextBtn
  clickOk : Bool

/-- is_disabled of run_scrape: a missing element counts as disabled; else a
class containing the disabled word after lowering, an aria-disabled attribute
equal to true, or a present disabled attribute. scrape of dummy_rpl_html
checks the same condition inline. -/
def is_disabled : Option NextBtn → Bool
  | none => true
  | some b =>
    strContains (pyLower (b.cls.getD "")) "disabled" ||
    (b.aria.getD "") == "true" || b.disabledAttr.isSome

/-- Whether the loop breaks after processing the page whose environment is
pg, with nextIndex the already-incremented page index used by the
maximum-page check (Python treats a zero maximum as falsy, so it never
stops). -/
def stopAfter (pg : PageEnv) (nextIndex : Nat) (maxPages : Option Nat) : Bool :=
  pg.nextBtn.isNone || is_disabled pg.nextBtn || !pg.clickOk ||
    (match maxPages with
     | some m => decide (m ≠ 0) && decide (nextIndex > m)
     | none => false)

/-- The one-based page indices the while-true pagination loop processes,
starting at page i: the page is processed, then the loop either breaks or
moves to the next page. Fuel bounds the unbounded source loop; a run that
stops by itself gives the same answer for every sufficient fuel. -/
def run_scrape_pages (env : Nat → PageEnv) (maxPages : Option Nat) :
    Nat → Nat → List Nat
  | 0, _ => []
  | fuel + 1, i =>
    i :: (if stopAfter (env i) (i + 1) maxPages then []
          else run_scrape_pages env maxPages fuel (i + 1))

end Rpl

/-! ## Label-proximity extraction over pre-resolved DOM queries

The Playwright DOM is the external collaborator; a Container holds the
results of the queries the extractors issue: the all-elements enumeration in
document order, and the paragraph-div-span-li enumeration used by the
forward-scan strategy. Each element carries its inner text, its next
sibling's inner text when a sibling element exists, and its parent's inner
text when a parent element exists; eid is element identity, used where the
source compares handles. -/

structure Elem where
  eid : Nat
  innerText : String
  nextSib : Option String
  parentText : Option String

structure Container where
  allElems : List Elem
  pdsl : List Elem

namespace RplPoland

/-- Strategy three of extract_value_by_label: walk the
paragraph-div-span-li elements; skip blank ones; once the flag is set the
first non-blank text is the value; the flag is set by passing the label
element itself (handle identity). The non-blank check precedes the flag
check, exactly as in the source. -/
def strat3 (el : Elem) : List Elem → Bool → Option String
  | [], _ => none
  | f :: rest, addnext =>
    let ftxt := pyStrip f.innerText
    if ftxt.data.isEmpty then strat3 el rest addnext
    else if addnext then some ftxt
    else if f.eid == el.eid then strat3 el rest true
    else strat3 el rest addnext

/-- Value extraction for one label hit in extract_value_by_label: the next
sibling's stripped text when non-empty, else the parent's stripped text with
the element's stripped text deleted and the remainder stripped when
non-empty, else the forward scan. -/
def elemValue (cont : Container) (el : Elem) : Option String :=
  let viaSib : Option String :=
    match el.nextSib with
    | some sib =>
      let vtxt := pyStrip sib
      if !vtxt.data.isEmpty then some vtxt else none
    | none => none
  match viaSib with
  | some v => some v
  | none =>
    let viaParent : Option String :=
      match el.parentText with
      | some pt =>
        let ptext := pyStrip pt
        let remainder := pyStrip (pyRemove ptext (pyStrip el.innerText))
        if !remainder.data.isEmpty then some remainder else none
      | none => none
    match viaParent with
    | some v => some v
    | none => strat3 el cont.pdsl false

/-- The label-hit collection loop of extract_value_by_label: elements with
blank text are skipped; an element whose lowered text contains any variant
contributes the value its strategies find, in document order. -/
def collectValues (cont : Container) (label_variants : List String) : List String :=
  cont.allElems.foldl
    (fun acc el =>
      let txt := pyStrip el.innerText
      if txt.data.isEmpty then acc
      else if label_variants.any (fun v => strContains (pyLower txt) v) then
        match elemValue cont el with
        | some v => acc ++ [v]
        | none => acc
      else acc)
    []

/-- rpl_poland.extract_value_by_label: None when no label hit yielded a
value, else the values deduplicated in first-seen order and joined with the
blank-pipe-blank separator. -/
def extract_value_by_label (cont : Container) (label_variants : List String) :
    Option String :=
  let found_values := collectValues cont label_variants
  if found_values.isEmpty then none
  else some (pyJoin " | " (dedupFirstSeen found_values))

end RplPoland

namespace DummyRpl

/-- The heading keywords whose lines strategy two drops, as listed in
extract_by_label_in_container. -/
def headingKeywords : List String :=
  ["name of the mp", "nazwa produktu", "nazwa powszechnie stosowana",
   "ma number", "numer pozwolenia", "pharmaceutical form",
   "postać farmaceutyczna", "substance", "substancja", "kod atc", "pack",
   "opakowania", "gtin"]

/-- Strategy two of extract_by_label_in_container: the parent's stripped
text, split into stripped non-blank lines, dropping every line that contains
a lowered label variant or a heading keyword; when lines remain they are
joined with the blank-pipe-blank separator. -/
def strat2 (variantsL : List String) (el : Elem) : Option String :=
  match el.parentText with
  | none => none
  | some pt =>
    let lines := ((pySplitlines (pyStrip pt)).map pyStrip).filter
      (fun ln => !ln.data.isEmpty)
    let cleaned := lines.filter (fun ln =>
      let lnl := pyLower ln
      !(variantsL.any (fun lab => strContains lnl lab)) &&
      !(headingKeywords.any (fun kw => strContains lnl kw)))
    if cleaned.isEmpty then none else some (pyJoin " | " cleaned)

/-- Strategy three of extract_by_label_in_container: walk the
paragraph-div-span-li elements; skip blank ones; before the flag is set, a
text containing the label element's stripped text sets the flag and the walk
continues; after it, the first non-blank text is the value. -/
def strat3 (txt : String) : List Elem → Bool → Option String
  | [], _ => none
  | s :: rest, seen =>
    let stext := pyStrip s.innerText
    if stext.data.isEmpty then strat3 txt rest seen
    else if !seen then strat3 txt rest (strContains stext txt)
    else some stext

/-- Value extraction for one label hit in extract_by_label_in_container:
next sibling, then cleaned parent block, then forward scan. -/
def elemValue (cont : Container) (variantsL : List String) (el : Elem) :
    Option String :=
  let viaSib : Option String :=
    match el.nextSib with
    | some sib =>
      let cand := pyStrip sib
      if !cand.data.isEmpty then some cand else none
    | none => none
  match viaSib with
  | some v => some v
  | none =>
    match strat2 variantsL el with
    | some v => some v
    | none => strat3 (pyStrip el.innerText) cont.pdsl false

/-- The label-hit collection loop of extract_by_label_in_container, against
the already-lowered variants. -/
def collectValues (cont : Container) (variantsL : List String) : List String :=
  cont.allElems.foldl
    (fun acc el =>
      let txt := pyStrip el.innerText
      if txt.data.isEmpty then acc
      else if variantsL.any (fun v => strContains (pyLower txt) v) then
        match elemValue cont variantsL el with
        | some v => acc ++ [v]
        | none => acc
      else acc)
    []

/-- The per-value post-clean of extract_by_label_in_container: split on the
pipe character, strip each part, drop parts containing a lowered label
variant and parts shorter than two characters. -/
def goodParts (variantsL : List String) (v : String) : List String :=
  ((pySplitChar '|' v).map pyStrip).filter (fun p =>
    let pl := pyLower p
    !(variantsL.any (fun lab => strContains pl lab)) && !(pl.data.length < 2))

/-- The out-list accumulation of extract_by_label_in_container: for each
collected value, in order, the blank-pipe-blank join of its surviving parts,
skipping values whose parts all get dropped. -/
def cleanedBlocks (variantsL : List String) (values : List String) : List String :=
  values.foldl
    (fun acc v =>
      let gp := goodParts variantsL v
      if gp.isEmpty then acc else acc ++ [pyJoin " | " gp])
    []

/-- dummy_rpl_html.extract_by_label_in_container: lower the variants,
collect values over label hits, post-clean each value keeping the
blank-pipe-blank join of its surviving parts, and join the surviving value
blocks with the double-pipe separator; None when nothing survives. No
deduplication happens on this path. -/
def extract_by_label_in_container (cont : Container) (label_variants : List String) :
    Option String :=
  let variantsL := label_variants.map pyLower
  let values := collectValues cont variantsL
  if values.isEmpty then none
  else
    let out := cleanedBlocks variantsL values
    if out.isEmpty then none else some (pyJoin " || " out)

end DummyRpl

/-! ## Concrete inputs used by witnesses and counterexamples -/

/-- A container whose only element's text holds no label synonym. -/
def contPlain : Container :=
  { allElems := [{ eid := 0, innerText := "hello world",
                   nextSib := some "value", parentText := none }],
    pdsl := [] }

/-- A card with two manufacturer label spans whose sibling values are the
same text: two independent label hits yielding equal values. -/
def contDupDummy : Container :=
  { allElems :=
      [{ eid := 0, innerText := "Wytwórca X", nextSib := some "Acme",
         parentText := none },
       { eid := 1, innerText := "Acme", nextSib := some "Wytwórca Y",
         parentText := none },
       { eid := 2, innerText := "Wytwórca Y", nextSib := some "Acme",
         parentText := none },
       { eid := 3, innerText := "Acme", nextSib := none, parentText := none }],
    pdsl := [] }

/-- A card with two manufacturer label spans whose sibling values differ:
two independent label hits yielding distinct values. -/
def contTwoRpl : Container :=
  { allElems :=
      [{ eid := 0, innerText := "Wytwórca X", nextSib := some "Acme",
         parentText := none },
       { eid := 1, innerText := "Acme", nextSib := some "Wytwórca Y",
         parentText := none },
       { eid := 2, innerText := "Wytwórca Y", nextSib := some "Beta",
         parentText := none },
       { eid := 3, innerText := "Beta", nextSib := none, parentText := none }],
    pdsl := [] }

/-- A listing that counts one card at the first enumeration and two cards at
every later re-enumeration: growth, never shrinkage. -/
def enumGrow (j : Nat) : Nat := if j == 0 then 1 else 2

/-- A listing of five cards that shrinks to three from the fourth
re-enumeration on. -/
def enumShrink (j : Nat) : Nat := if j < 3 then 5 else 3

/-- The session answers of the five-item scenario: every click works, the
detail page reports ready except at index three, no PDF anywhere. -/
def envScenario5 (i : Nat) : Index1.ItemEnv :=
  { clickOk := true, detailReady := !(i == 3), h1Visible := true,
    h1Text := "Med", ownerVisible := true,
    ownerText := "Azienda titolare: Pfizer", pdfBtnVisible := false,
    pdfDownloadOk := false, pdfParseOk := false, pdfErr := "", pdfText := "" }

/-- A session answer where the detail page has an owner paragraph and a
downloadable PDF whose text names a Produttore. -/
def envItemFull : Index1.ItemEnv :=
  { clickOk := true, detailReady := true, h1Visible := true,
    h1Text := "Linezolid Teva", ownerVisible := true,
    ownerText := "Azienda titolare: Pfizer Italia",
    pdfBtnVisible := true, pdfDownloadOk := true, pdfParseOk := true,
    pdfErr := "",
    pdfText := "Titolare AIC: Pfizer Italia S.r.l.\nProduttore: Pfizer Manufacturing" }

/-- Pagination answers: pages one and two have a live next control, from
page three on the control carries a disabled class. -/
def liveNextBtn : Rpl.NextBtn :=
  { cls := some "cez-paginator-next", aria := none, disabledAttr := none }

def disabledNextBtn : Rpl.NextBtn :=
  { cls := some "cez-paginator-next disabled", aria := none, disabledAttr := none }

def pageEnvDisabled3 (i : Nat) : Rpl.PageEnv :=
  if i < 3 then { nextBtn := some liveNextBtn, clickOk := true }
  else { nextBtn := some disabledNextBtn, clickOk := true }

/-- The row the full-session answer envItemFull produces at index zero for
the Linezolid substance. -/
def rowFull : Index1.ResultRow :=
  { search_substance := "Linezolid", product_name := "Linezolid Teva",
    ma_holder := "Pfizer Italia", manufacturer := "Pfizer Manufacturing",
    pdf_file := "Linezolid_1.pdf" }

/-! ## Lemmas about the string primitives -/

theorem dropWhile_head_false {p : Char → Bool} {l t : List Char} {c : Char}
    (h : l.dropWhile p = c :: t) : p c = false := by
  have hh := List.head?_dropWhile_not p l
  rw [h] at hh
  exact hh

theorem dropWhile_dropWhile (p : Char → Bool) (l : List Char) :
    (l.dropWhile p).dropWhile p = l.dropWhile p := by
  cases h : l.dropWhile p with
  | nil => simp
  | cons c t =>
    have hc : p c = false := dropWhile_head_false h
    simp [List.dropWhile_cons, hc]

theorem dropWhile_prefix_self {p : Char → Bool} {l m : List Char}
    (hpre : m <+: l.dropWhile p) : m.dropWhile p = m := by
  cases hm : m with
  | nil => simp
  | cons c t =>
    obtain ⟨u, hu⟩ := hpre
    rw [hm] at hu
    have hc : p c = false := dropWhile_head_false hu.symm
    simp [List.dropWhile_cons, hc]

theorem stripChars_idem (l : List Char) :
    stripChars (stripChars l) = stripChars l := by
  unfold stripChars
  set A := l.dropWhile isPySpace with hA
  set B := A.reverse.dropWhile isPySpace with hB
  have hsuf : B <:+ A.reverse := List.dropWhile_suffix _
  have hpre : B.reverse <+: A := by
    have h := List.reverse_prefix.mpr hsuf
    simpa using h
  have h1 : B.reverse.dropWhile isPySpace = B.reverse := by
    apply dropWhile_prefix_self (l := l)
    rw [← hA]
    exact hpre
  rw [h1, List.reverse_reverse]
  have h2 : B.dropWhile isPySpace = B := by
    rw [hB]
    exact dropWhile_dropWhile _ _
  rw [h2]

theorem pyStrip_idem (s : String) : pyStrip (pyStrip s) = pyStrip s := by
  simp [pyStrip, stripChars_idem]

theorem mem_stripChars {l : List Char} {c : Char} (h : c ∈ stripChars l) : c ∈ l := by
  unfold stripChars at h
  rw [List.mem_reverse] at h
  have h2 := (List.dropWhile_sublist (l := (l.dropWhile isPySpace).reverse)
    isPySpace).subset h
  rw [List.mem_reverse] at h2
  exact (List.dropWhile_sublist (l := l) isPySpace).subset h2

theorem mem_pyStrip {s : String} {c : Char} (h : c ∈ (pyStrip s).data) : c ∈ s.data := by
  simpa [pyStrip] using mem_stripChars h

/-! ## Lemmas about the regex engine

The captures of the repository's patterns are all built from character
classes that reject the newline; hence any captured text is newline-free, and
the stripped result has no outer whitespace. -/

/-- Every character class in the expression rejects the newline. -/
def clsNoNl : RE → Bool
  | .eps => true
  | .cls p => !p '\n'
  | .cat a b => clsNoNl a && clsNoNl b
  | .alt a b => clsNoNl a && clsNoNl b
  | .opt a => clsNoNl a
  | .rep p _ _ _ => !p '\n'
  | .grp _ a => clsNoNl a
  | .eol => true

/-- Every capture group's body consists of classes that reject the newline. -/
def grpsNoNl : RE → Bool
  | .eps => true
  | .cls _ => true
  | .cat a b => grpsNoNl a && grpsNoNl b
  | .alt a b => grpsNoNl a && grpsNoNl b
  | .opt a => grpsNoNl a
  | .rep _ _ _ _ => true
  | .grp _ a => clsNoNl a
  | .eol => true

theorem grpsNoNl_of_clsNoNl : ∀ r : RE, clsNoNl r = true → grpsNoNl r = true := by
  intro r
  induction r with
  | eps => intro _; rfl
  | cls p => intro _; rfl
  | cat a b iha ihb =>
    intro h
    simp only [clsNoNl, Bool.and_eq_true] at h
    simp only [grpsNoNl, Bool.and_eq_true]
    exact ⟨iha h.1, ihb h.2⟩
  | alt a b iha ihb =>
    intro h
    simp only [clsNoNl, Bool.and_eq_true] at h
    simp only [grpsNoNl, Bool.and_eq_true]
    exact ⟨iha h.1, ihb h.2⟩
  | opt a iha => exact iha
  | rep p lo hi lzy => intro _; rfl
  | grp i a iha => intro h; exact h
  | eol => intro _; rfl

theorem mem_repCounts_top {lo top k : Nat} {lzy : Bool}
    (h : k ∈ (if lo > top then ([] : List Nat)
      else
        let ks := (List.range (top + 1 - lo)).map (fun j => lo + j)
        if lzy then ks else ks.reverse)) : k ≤ top := by
  by_cases hgt : lo > top
  · rw [if_pos hgt] at h
    simp at h
  · rw [if_neg hgt] at h
    have hk : k ∈ (List.range (top + 1 - lo)).map (fun j => lo + j) := by
      by_cases hl : lzy = true
      · simpa [hl] using h
      · simp only [hl, Bool.false_eq_true, if_false, List.mem_reverse] at h
        exact h
    rw [List.mem_map] at hk
    obtain ⟨j, hj, rfl⟩ := hk
    rw [List.mem_range] at hj
    omega

theorem mem_repCounts_le {lo : Nat} {hi : Option Nat} {lzy : Bool} {mx k : Nat}
    (h : k ∈ repCounts lo hi lzy mx) : k ≤ mx := by
  unfold repCounts at h
  rcases hi with _ | m
  · exact mem_repCounts_top h
  · have : k ≤ min m mx := mem_repCounts_top h
    omega

theorem mem_take_of_le_takeWhile {p : Char → Bool} :
    ∀ (s : List Char) (k : Nat), k ≤ (s.takeWhile p).length →
      ∀ c ∈ s.take k, p c = true := by
  intro s
  induction s with
  | nil => intro k _ c hc; simp at hc
  | cons a t ih =>
    intro k hk c hc
    cases k with
    | zero => simp at hc
    | succ k =>
      by_cases hpa : p a
      · rw [List.take_succ_cons, List.mem_cons] at hc
        rcases hc with rfl | hc
        · exact hpa
        · apply ih k _ c hc
          simpa [List.takeWhile_cons, hpa] using hk
      · simp [List.takeWhile_cons, hpa] at hk

theorem reMs_suffix (r : RE) :
    ∀ (s : List Char) (x : List Char × Caps), x ∈ reMs r s → x.1 <:+ s := by
  induction r with
  | eps =>
    intro s x h
    simp only [reMs, List.mem_singleton] at h
    subst h
    exact List.suffix_refl s
  | cls p =>
    intro s x h
    cases s with
    | nil => simp [reMs] at h
    | cons c t =>
      simp only [reMs] at h
      by_cases hp : p c
      · rw [if_pos hp, List.mem_singleton] at h
        subst h
        exact (List.suffix_cons c t)
      · rw [if_neg hp] at h
        simp at h
  | cat a b iha ihb =>
    intro s x h
    simp only [reMs, List.mem_flatMap, List.mem_map] at h
    obtain ⟨xa, hxa, xb, hxb, rfl⟩ := h
    exact (ihb xa.1 xb hxb).trans (iha s xa hxa)
  | alt a b iha ihb =>
    intro s x h
    simp only [reMs, List.mem_append] at h
    rcases h with h | h
    · exact iha s x h
    · exact ihb s x h
  | opt a iha =>
    intro s x h
    simp only [reMs, List.mem_append, List.mem_singleton] at h
    rcases h with h | rfl
    · exact iha s x h
    · exact List.suffix_refl s
  | rep p lo hi lzy =>
    intro s x h
    simp only [reMs, List.mem_map] at h
    obtain ⟨k, _, rfl⟩ := h
    exact List.drop_suffix k s
  | grp i a iha =>
    intro s x h
    simp only [reMs, List.mem_map] at h
    obtain ⟨xa, hxa, rfl⟩ := h
    exact iha s xa hxa
  | eol =>
    intro s x h
    cases s with
    | nil =>
      simp only [reMs, List.mem_singleton] at h
      subst h
      exact List.suffix_refl _
    | cons c t =>
      simp only [reMs] at h
      by_cases hc : c == '\n'
      · rw [if_pos hc, List.mem_singleton] at h
        subst h
        exact List.suffix_refl _
      · rw [if_neg hc] at h
        simp at h

theorem reMs_consumed_noNl (r : RE) (hr : clsNoNl r = true) :
    ∀ (s : List Char) (x : List Char × Caps), x ∈ reMs r s →
      ∃ pre, s = pre ++ x.1 ∧ ∀ c ∈ pre, c ≠ '\n' := by
  induction r with
  | eps =>
    intro s x h
    simp only [reMs, List.mem_singleton] at h
    subst h
    exact ⟨[], rfl, by simp⟩
  | cls p =>
    intro s x h
    cases s with
    | nil => simp [reMs] at h
    | cons c t =>
      simp only [reMs] at h
      by_cases hp : p c
      · rw [if_pos hp, List.mem_singleton] at h
        subst h
        refine ⟨[c], rfl, ?_⟩
        intro d hd
        rw [List.mem_singleton] at hd
        subst hd
        intro hdn
        subst hdn
        simp only [clsNoNl, Bool.not_eq_true'] at hr
        rw [hr] at hp
        exact absurd hp (by simp)
      · rw [if_neg hp] at h
        simp at h
  | cat a b iha ihb =>
    simp only [clsNoNl, Bool.and_eq_true] at hr
    intro s x h
    simp only [reMs, List.mem_flatMap, List.mem_map] at h
    obtain ⟨xa, hxa, xb, hxb, rfl⟩ := h
    obtain ⟨pa, hpa, hna⟩ := iha hr.1 s xa hxa
    obtain ⟨pb, hpb, hnb⟩ := ihb hr.2 xa.1 xb hxb
    refine ⟨pa ++ pb, ?_, ?_⟩
    · rw [hpa, hpb, List.append_assoc]
    · intro c hc
      rw [List.mem_append] at hc
      rcases hc with hc | hc
      · exact hna c hc
      · exact hnb c hc
  | alt a b iha ihb =>
    simp only [clsNoNl, Bool.and_eq_true] at hr
    intro s x h
    simp only [reMs, List.mem_append] at h
    rcases h with h | h
    · exact iha hr.1 s x h
    · exact ihb hr.2 s x h
  | opt a iha =>
    simp only [clsNoNl] at hr
    intro s x h
    simp only [reMs, List.mem_append, List.mem_singleton] at h
    rcases h with h | rfl
    · exact iha hr s x h
    · exact ⟨[], rfl, by simp⟩
  | rep p lo hi lzy =>
    simp only [clsNoNl, Bool.not_eq_true'] at hr
    intro s x h
    simp only [reMs, List.mem_map] at h
    obtain ⟨k, hk, rfl⟩ := h
    have hkle : k ≤ (s.takeWhile p).length := mem_repCounts_le hk
    refine ⟨s.take k, (List.take_append_drop k s).symm, ?_⟩
    intro c hc
    have hpc : p c = true := mem_take_of_le_takeWhile s k hkle c hc
    intro hcn
    subst hcn
    rw [hr] at hpc
    exact absurd hpc (by simp)
  | grp i a iha =>
    simp only [clsNoNl] at hr
    intro s x h
    simp only [reMs, List.mem_map] at h
    obtain ⟨xa, hxa, rfl⟩ := h
    exact iha hr s xa hxa
  | eol =>
    intro s x h
    cases s with
    | nil =>
      simp only [reMs, List.mem_singleton] at h
      subst h
      exact ⟨[], rfl, by simp⟩
    | cons c t =>
      simp only [reMs] at h
      by_cases hc : c == '\n'
      · rw [if_pos hc, List.mem_singleton] at h
        subst h
        exact ⟨[], rfl, by simp⟩
      · rw [if_neg hc] at h
        simp at h

theorem reMs_caps_noNl (r : RE) (hr : grpsNoNl r = true) :
    ∀ (s : List Char) (x : List Char × Caps), x ∈ reMs r s →
      ∀ pr ∈ x.2, ∀ c ∈ pr.2.data, c ≠ '\n' := by
  induction r with
  | eps =>
    intro s x h
    simp only [reMs, List.mem_singleton] at h
    subst h
    simp
  | cls p =>
    intro s x h
    cases s with
    | nil => simp [reMs] at h
    | cons c t =>
      simp only [reMs] at h
      by_cases hp : p c
      · rw [if_pos hp, List.mem_singleton] at h
        subst h
        simp
      · rw [if_neg hp] at h
        simp at h
  | cat a b iha ihb =>
    simp only [grpsNoNl, Bool.and_eq_true] at hr
    intro s x h
    simp only [reMs, List.mem_flatMap, List.mem_map] at h
    obtain ⟨xa, hxa, xb, hxb, rfl⟩ := h
    intro pr hpr
    simp only [List.mem_append] at hpr
    rcases hpr with hpr | hpr
    · exact iha hr.1 s xa hxa pr hpr
    · exact ihb hr.2 xa.1 xb hxb pr hpr
  | alt a b iha ihb =>
    simp only [grpsNoNl, Bool.and_eq_true] at hr
    intro s x h
    simp only [reMs, List.mem_append] at h
    rcases h with h | h
    · exact iha hr.1 s x h
    · exact ihb hr.2 s x h
  | opt a iha =>
    simp only [grpsNoNl] at hr
    intro s x h
    simp only [reMs, List.mem_append, List.mem_singleton] at h
    rcases h with h | rfl
    · exact iha hr s x h
    · simp
  | rep p lo hi lzy =>
    intro s x h
    simp only [reMs, List.mem_map] at h
    obtain ⟨k, _, rfl⟩ := h
    simp
  | grp i a iha =>
    simp only [grpsNoNl] at hr
    intro s x h
    simp only [reMs, List.mem_map] at h
    obtain ⟨xa, hxa, rfl⟩ := h
    intro pr hpr
    simp only [List.mem_append, List.mem_singleton] at hpr
    rcases hpr with hpr | rfl
    · exact iha (grpsNoNl_of_clsNoNl a hr) s xa hxa pr hpr
    · intro c hc
      obtain ⟨pre, hpre, hnn⟩ := reMs_consumed_noNl a hr s xa hxa
      have hcap : (capOf s xa.1).data = pre := by
        simp only [capOf]
        rw [hpre]
        have : (pre ++ xa.1).length - xa.1.length = pre.length := by
          rw [List.length_append]
          omega
        rw [this, List.take_left]
      rw [hcap] at hc
      exact hnn c hc
  | eol =>
    intro s x h
    cases s with
    | nil =>
      simp only [reMs, List.mem_singleton] at h
      subst h
      simp
    | cons c t =>
      simp only [reMs] at h
      by_cases hc : c == '\n'
      · rw [if_pos hc, List.mem_singleton] at h
        subst h
        simp
      · rw [if_neg hc] at h
        simp at h

theorem reSearch_caps_noNl (r : RE) (hr : grpsNoNl r = true) :
    ∀ (l : List Char) (caps : Caps), reSearch r l = some caps →
      ∀ pr ∈ caps, ∀ c ∈ pr.2.data, c ≠ '\n' := by
  intro l
  induction l with
  | nil =>
    intro caps h
    simp only [reSearch] at h
    cases hm : reMs r [] with
    | nil => rw [hm] at h; exact absurd h (by simp)
    | cons x rest =>
      rw [hm] at h
      simp only [Option.some.injEq] at h
      subst h
      exact reMs_caps_noNl r hr [] x (hm ▸ List.mem_cons_self x rest)
  | cons c t ih =>
    intro caps h
    simp only [reSearch] at h
    cases hm : reMs r (c :: t) with
    | nil =>
      rw [hm] at h
      exact ih caps h
    | cons x rest =>
      rw [hm] at h
      simp only [Option.some.injEq] at h
      subst h
      exact reMs_caps_noNl r hr (c :: t) x (hm ▸ List.mem_cons_self x rest)

theorem getGrp_noNl {caps : Caps} {i : Nat}
    (h : ∀ pr ∈ caps, ∀ c ∈ pr.2.data, c ≠ '\n') :
    ∀ c ∈ (getGrp caps i).data, c ≠ '\n' := by
  unfold getGrp
  cases hf : caps.find? (fun x => x.1 == i) with
  | none => simp
  | some x =>
    have hx : x ∈ caps := List.mem_of_find?_eq_some hf
    exact h x hx

/-- Any stripped capture that the first-match scan returns over patterns with
newline-free group bodies contains no newline and carries no outer
whitespace. -/
theorem firstCapture_strip_props {pats : List RE} {gi : Nat} {text : String}
    {s : String} (hall : pats.all grpsNoNl = true)
    (h : firstCapture pyStrip pats gi text = some s) :
    (∀ c ∈ s.data, c ≠ '\n') ∧ pyStrip s = s := by
  induction pats with
  | nil => simp [firstCapture] at h
  | cons p rest ih =>
    simp only [List.all_cons, Bool.and_eq_true] at hall
    simp only [firstCapture] at h
    cases hs : reSearch p text.data with
    | some caps =>
      rw [hs] at h
      simp only [Option.some.injEq] at h
      subst h
      constructor
      · intro c hc
        exact getGrp_noNl (reSearch_caps_noNl p hall.1 text.data caps hs) c
          (mem_pyStrip hc)
      · exact pyStrip_idem _
    | none =>
      rw [hs] at h
      exact ih hall.2 h

/-! ## Lemmas about the traversal, pagination and deduplication loops -/

theorem run_scraper_visited_full (enum : Nat → Nat) :
    ∀ (rem idx : Nat), (∀ i, idx ≤ i → i < idx + rem → i < enum i) →
      Index1.run_scraper_visited enum rem idx = List.range' idx rem := by
  intro rem
  induction rem with
  | zero => intro idx _; rfl
  | succ rem ih =>
    intro idx h
    have hidx : idx < enum idx := h idx (Nat.le_refl idx) (by omega)
    simp only [Index1.run_scraper_visited, if_pos hidx]
    rw [ih (idx + 1) (fun i h1 h2 => h i (by omega) (by omega))]
    rw [List.range'_succ idx rem 1]

theorem run_scraper_visited_shrink (enum : Nat → Nat) :
    ∀ (rem idx M : Nat), idx ≤ M → M < idx + rem →
      (∀ i, idx ≤ i → i < M → i < enum i) → enum M ≤ M →
      Index1.run_scraper_visited enum rem idx = List.range' idx (M - idx) := by
  intro rem
  induction rem with
  | zero => intro idx M h1 h2 _ _; omega
  | succ rem ih =>
    intro idx M h1 h2 h3 h4
    by_cases heq : idx = M
    · subst heq
      have : ¬ idx < enum idx := by omega
      simp only [Index1.run_scraper_visited, if_neg this]
      simp
    · have hlt : idx < M := by omega
      have hidx : idx < enum idx := h3 idx (Nat.le_refl idx) hlt
      simp only [Index1.run_scraper_visited, if_pos hidx]
      rw [ih (idx + 1) M (by omega) (by omega)
        (fun i hi1 hi2 => h3 i (by omega) hi2) h4]
      have hM : M - idx = (M - (idx + 1)) + 1 := by omega
      rw [hM, List.range'_succ idx (M - (idx + 1)) 1]

theorem iterate_visited_stop (enum : Nat → Nat) (ck gb : Nat → Bool) :
    ∀ (fuel idx M : Nat), idx ≤ M → M < idx + fuel →
      (∀ i, idx ≤ i → i < M → i < enum i) →
      (∀ i, idx ≤ i → i < M → (!ck i || gb i) = true) → enum M ≤ M →
      AifaV2.iterate_visited enum ck gb fuel idx = List.range' idx (M - idx) := by
  intro fuel
  induction fuel with
  | zero => intro idx M h1 h2 _ _ _; omega
  | succ fuel ih =>
    intro idx M h1 h2 h3 hct h4
    by_cases heq : idx = M
    · subst heq
      have : ¬ idx < enum idx := by omega
      simp only [AifaV2.iterate_visited, if_neg this]
      simp
    · have hlt : idx < M := by omega
      have hidx : idx < enum idx := h3 idx (Nat.le_refl idx) hlt
      simp only [AifaV2.iterate_visited, if_pos hidx,
        if_pos (hct idx (Nat.le_refl idx) hlt)]
      rw [ih (idx + 1) M (by omega) (by omega)
        (fun i hi1 hi2 => h3 i (by omega) hi2)
        (fun i hi1 hi2 => hct i (by omega) hi2) h4]
      have hM : M - idx = (M - (idx + 1)) + 1 := by omega
      rw [hM, List.range'_succ idx (M - (idx + 1)) 1]

theorem run_scraper_loop_rows (substance : String) (enum : Nat → Nat)
    (envs : Nat → Index1.ItemEnv) :
    ∀ (rem idx : Nat), (∀ i, idx ≤ i → i < idx + rem → i < enum i) →
      (Index1.run_scraper_loop substance enum envs rem idx).map Prod.fst =
        (List.range' idx rem).filter
          (fun i => (envs i).clickOk && (envs i).detailReady) := by
  intro rem
  induction rem with
  | zero => intro idx _; rfl
  | succ rem ih =>
    intro idx h
    have hidx : idx < enum idx := h idx (Nat.le_refl idx) (by omega)
    simp only [Index1.run_scraper_loop, if_pos hidx]
    rw [List.range'_succ idx rem 1, List.filter_cons]
    have hrec := ih (idx + 1) (fun i h1 h2 => h i (by omega) (by omega))
    by_cases hck : (envs idx).clickOk = true
    · by_cases hdr : (envs idx).detailReady = true
      · simp only [Index1.processItem, hck, hdr, Bool.not_true, Bool.false_eq_true,
          if_false, List.map_append, hrec, hck, hdr, Bool.and_self, if_pos]
        simp
      · have hdr' : (envs idx).detailReady = false := by
          revert hdr; cases (envs idx).detailReady <;> simp
        simp only [Index1.processItem, hck, hdr', Bool.not_true, Bool.not_false,
          Bool.false_eq_true, if_false, if_true, List.nil_append, hrec]
        simp [hck, hdr']
    · have hck' : (envs idx).clickOk = false := by
        revert hck; cases (envs idx).clickOk <;> simp
      simp only [Index1.processItem, hck', Bool.not_false, if_true,
        List.nil_append, hrec]
      simp [hck']

theorem run_scrape_pages_stop (env : Nat → Rpl.PageEnv) (mp : Option Nat) :
    ∀ (fuel i K : Nat), i ≤ K → K < i + fuel →
      (∀ j, i ≤ j → j < K → Rpl.stopAfter (env j) (j + 1) mp = false) →
      Rpl.stopAfter (env K) (K + 1) mp = true →
      Rpl.run_scrape_pages env mp fuel i = List.range' i (K - i + 1) := by
  intro fuel
  induction fuel with
  | zero => intro i K h1 h2 _ _; omega
  | succ fuel ih =>
    intro i K h1 h2 h3 h4
    by_cases heq : i = K
    · subst heq
      simp only [Rpl.run_scrape_pages, h4, if_true]
      simp
    · have hlt : i < K := by omega
      have hstop : Rpl.stopAfter (env i) (i + 1) mp = false :=
        h3 i (Nat.le_refl i) hlt
      simp only [Rpl.run_scrape_pages, hstop, Bool.false_eq_true, if_false]
      rw [ih (i + 1) K (by omega) (by omega)
        (fun j hj1 hj2 => h3 j (by omega) hj2) h4]
      have hK : K - i + 1 = (K - (i + 1) + 1) + 1 := by omega
      rw [hK, List.range'_succ i (K - (i + 1) + 1) 1]

theorem run_scrape_pages_maxlen (env : Nat → Rpl.PageEnv) (m : Nat) :
    ∀ (fuel i : Nat), 1 ≤ i → i ≤ m →
      (Rpl.run_scrape_pages env (some m) fuel i).length ≤ m + 1 - i := by
  intro fuel
  induction fuel with
  | zero => intro i h1 h2; simp [Rpl.run_scrape_pages]
  | succ fuel ih =>
    intro i h1 h2
    by_cases heq : i = m
    · have hstop : Rpl.stopAfter (env i) (i + 1) (some m) = true := by
        simp only [Rpl.stopAfter]
        have h0 : (decide (m ≠ 0) && decide (i + 1 > m)) = true := by
          simp only [Bool.and_eq_true, decide_eq_true_eq]
          omega
        rw [h0]
        simp
      simp only [Rpl.run_scrape_pages, hstop, if_true]
      simp
      omega
    · have hlt : i < m := by omega
      simp only [Rpl.run_scrape_pages]
      by_cases hstop : Rpl.stopAfter (env i) (i + 1) (some m) = true
      · rw [if_pos hstop]
        simp
        omega
      · rw [if_neg hstop]
        have := ih (i + 1) (by omega) (by omega)
        simp only [List.length_cons]
        omega

theorem dedupFirstSeen_aux (l : List String) :
    ∀ acc : List String, acc.Nodup →
      ∃ d, l.foldl (fun acc v => if acc.contains v then acc else acc ++ [v]) acc
          = acc ++ d ∧ d.Sublist l ∧ (acc ++ d).Nodup := by
  induction l with
  | nil =>
    intro acc hacc
    exact ⟨[], by simp, List.Sublist.refl [], by simpa using hacc⟩
  | cons v t ih =>
    intro acc hacc
    by_cases hc : acc.contains v = true
    · obtain ⟨d, hd, hsub, hnd⟩ := ih acc hacc
      refine ⟨d, ?_, hsub.cons v, hnd⟩
      simp only [List.foldl_cons, hc, if_true]
      exact hd
    · have hv : v ∉ acc := by simpa using hc
      have hacc' : (acc ++ [v]).Nodup := by
        rw [List.nodup_append]
        refine ⟨hacc, List.nodup_singleton v, ?_⟩
        intro a ha hb
        rw [List.mem_singleton] at hb
        subst hb
        exact hv ha
      obtain ⟨d, hd, hsub, hnd⟩ := ih (acc ++ [v]) hacc'
      refine ⟨v :: d, ?_, hsub.cons₂ v, ?_⟩
      · simp only [List.foldl_cons, hc, Bool.false_eq_true, if_false]
        rw [hd, List.append_assoc]
        rfl
      · have he : acc ++ v :: d = acc ++ [v] ++ d := by simp
        rw [he]
        exact hnd

theorem dedupFirstSeen_nodup (l : List String) : (dedupFirstSeen l).Nodup := by
  obtain ⟨d, hd, _, hnd⟩ := dedupFirstSeen_aux l [] List.nodup_nil
  unfold dedupFirstSeen
  rw [hd]
  simpa using hnd

theorem dedupFirstSeen_sublist (l : List String) : (dedupFirstSeen l).Sublist l := by
  obtain ⟨d, hd, hsub, _⟩ := dedupFirstSeen_aux l [] List.nodup_nil
  unfold dedupFirstSeen
  rw [hd]
  simpa using hsub

/-! ## Lemmas about the label-hit collection loops -/

theorem rpl_collect_aux (cont : Container) (vs : List String) :
    ∀ (l : List Elem) (acc : List String),
      (∀ el ∈ l, vs.any (fun v => strContains (pyLower (pyStrip el.innerText)) v) = false) →
      l.foldl
        (fun acc el =>
          let txt := pyStrip el.innerText
          if txt.data.isEmpty then acc
          else if vs.any (fun v => strContains (pyLower txt) v) then
            match RplPoland.elemValue cont el with
            | some v => acc ++ [v]
            | none => acc
          else acc)
        acc = acc := by
  intro l
  induction l with
  | nil => intro acc _; rfl
  | cons el t ih =>
    intro acc h
    have hel := h el (List.mem_cons_self el t)
    simp only [List.foldl_cons]
    have hstep :
        (let txt := pyStrip el.innerText
         if txt.data.isEmpty then acc
         else if vs.any (fun v => strContains (pyLower txt) v) then
           match RplPoland.elemValue cont el with
           | some v => acc ++ [v]
           | none => acc
         else acc) = acc := by
      by_cases he : (pyStrip el.innerText).data.isEmpty = true
      · simp only [he, if_true]
      · simp only [he, Bool.false_eq_true, if_false, hel]
    rw [hstep]
    exact ih acc (fun e he => h e (List.mem_cons_of_mem el he))

theorem RplPoland_collectValues_eq_nil (cont : Container) (vs : List String)
    (h : ∀ el ∈ cont.allElems,
      vs.any (fun v => strContains (pyLower (pyStrip el.innerText)) v) = false) :
    RplPoland.collectValues cont vs = [] := by
  unfold RplPoland.collectValues
  exact rpl_collect_aux cont vs cont.allElems [] h

theorem dummy_collect_aux (cont : Container) (vs : List String) :
    ∀ (l : List Elem) (acc : List String),
      (∀ el ∈ l, vs.any (fun v => strContains (pyLower (pyStrip el.innerText)) v) = false) →
      l.foldl
        (fun acc el =>
          let txt := pyStrip el.innerText
          if txt.data.isEmpty then acc
          else if vs.any (fun v => strContains (pyLower txt) v) then
            match DummyRpl.elemValue cont vs el with
            | some v => acc ++ [v]
            | none => acc
          else acc)
        acc = acc := by
  intro l
  induction l with
  | nil => intro acc _; rfl
  | cons el t ih =>
    intro acc h
    have hel := h el (List.mem_cons_self el t)
    simp only [List.foldl_cons]
    have hstep :
        (let txt := pyStrip el.innerText
         if txt.data.isEmpty then acc
         else if vs.any (fun v => strContains (pyLower txt) v) then
           match DummyRpl.elemValue cont vs el with
           | some v => acc ++ [v]
           | none => acc
         else acc) = acc := by
      by_cases he : (pyStrip el.innerText).data.isEmpty = true
      · simp only [he, if_true]
      · simp only [he, Bool.false_eq_true, if_false, hel]
    rw [hstep]
    exact ih acc (fun e he => h e (List.mem_cons_of_mem el he))

theorem DummyRpl_collectValues_eq_nil (cont : Container) (vsL : List String)
    (h : ∀ el ∈ cont.allElems,
      vsL.any (fun v => strContains (pyLower (pyStrip el.innerText)) v) = false) :
    DummyRpl.collectValues cont vsL = [] := by
  unfold DummyRpl.collectValues
  exact dummy_collect_aux cont vsL cont.allElems [] h

theorem dummy_out_aux (vsL : List String) :
    ∀ (values acc : List String),
      (∀ v ∈ values, DummyRpl.goodParts vsL v = []) →
      values.foldl
        (fun acc v =>
          let gp := DummyRpl.goodParts vsL v
          if gp.isEmpty then acc else acc ++ [pyJoin " | " gp])
        acc = acc := by
  intro values
  induction values with
  | nil => intro acc _; rfl
  | cons v t ih =>
    intro acc h
    have hv := h v (List.mem_cons_self v t)
    simp only [List.foldl_cons, hv, List.isEmpty_nil, if_true]
    exact ih acc (fun e he => h e (List.mem_cons_of_mem v he))

theorem cleanedBlocks_mem (vl : List String) :
    ∀ (values acc : List String),
      ∀ b ∈ values.foldl
        (fun acc v =>
          let gp := DummyRpl.goodParts vl v
          if gp.isEmpty then acc else acc ++ [pyJoin " | " gp])
        acc,
      b ∈ acc ∨ ∃ v ∈ values, b = pyJoin " | " (DummyRpl.goodParts vl v) ∧
        DummyRpl.goodParts vl v ≠ [] := by
  intro values
  induction values with
  | nil =>
    intro acc b hb
    exact Or.inl hb
  | cons v t ih =>
    intro acc b hb
    simp only [List.foldl_cons] at hb
    rcases ih _ b hb with hmem | ⟨v', hv', hb', hne⟩
    · by_cases hg : (DummyRpl.goodParts vl v).isEmpty = true
      · rw [if_pos hg] at hmem
        exact Or.inl hmem
      · rw [if_neg hg] at hmem
        rw [List.mem_append, List.mem_singleton] at hmem
        rcases hmem with hmem | rfl
        · exact Or.inl hmem
        · refine Or.inr ⟨v, List.mem_cons_self v t, rfl, ?_⟩
          intro hnil
          rw [hnil] at hg
          exact hg rfl
    · exact Or.inr ⟨v', List.mem_cons_of_mem v hv', hb', hne⟩

theorem cleanedBlocks_shape (vl values : List String) :
    ∀ b ∈ DummyRpl.cleanedBlocks vl values,
      ∃ v ∈ values, b = pyJoin " | " (DummyRpl.goodParts vl v) ∧
        DummyRpl.goodParts vl v ≠ [] := by
  intro b hb
  rcases cleanedBlocks_mem vl values [] b hb with hmem | h
  · simp at hmem
  · exact h

/-! ## Shared facts about the concrete pattern lists -/

theorem pdfUtils_mah_grps : PdfUtils.patterns_mah.all grpsNoNl = true := by decide

theorem pdfUtils_man_grps : PdfUtils.patterns_man.all grpsNoNl = true := by decide

theorem aifa_mah_grps : AifaScraper.mah_patterns.all grpsNoNl = true := by decide

theorem aifa_manu_grps : AifaScraper.manu_patterns.all grpsNoNl = true := by decide

theorem aifa_mah_fb_grps : grpsNoNl AifaScraper.mah_fallback = true := by decide

theorem aifa_manu_fb_grps : grpsNoNl AifaScraper.manu_fallback = true := by decide

/-- First-match scan over patterns that all fail to match returns nothing. -/
theorem firstCapture_eq_none {post : String → String} {pats : List RE} {gi : Nat}
    {text : String}
    (h : pats.all (fun p => (reSearch p text.data).isNone) = true) :
    firstCapture post pats gi text = none := by
  induction pats with
  | nil => rfl
  | cons p rest ih =>
    simp only [List.all_cons, Bool.and_eq_true] at h
    simp only [firstCapture]
    cases hs : reSearch p text.data with
    | some caps =>
      rw [hs] at h
      simp [Option.isNone] at h
    | none => exact ih h.2

/-- The stripped first capture of a pattern whose group bodies are
newline-free is newline-free and has no outer whitespace. -/
theorem strip_capture_props {r : RE} (hr : grpsNoNl r = true) {l : List Char}
    {caps : Caps} (h : reSearch r l = some caps) :
    (∀ c ∈ (pyStrip (getGrp caps 1)).data, c ≠ '\n') ∧
      pyStrip (pyStrip (getGrp caps 1)) = pyStrip (getGrp caps 1) :=
  ⟨fun c hc => getGrp_noNl (reSearch_caps_noNl r hr l caps h) c (mem_pyStrip hc),
   pyStrip_idem _⟩

/-! ## Claim theorems -/

set_option maxRecDepth 8000

/-- Claim C7: applying the PDF field extractor to the exact input text
that reads Titolare AIC colon Pfizer Italia S.r.l., newline, Produttore
colon Pfizer Manufacturing yields the MA holder Pfizer Italia S.r.l. and
the manufacturer Pfizer Manufacturing; this holds for
pdf_utils.extract_from_pdf and for the regex body of
index1.extract_details_from_pdf on the same text. -/
theorem claim_C7_scenario_pfizer :
    PdfUtils.extract_from_pdf
        "Titolare AIC: Pfizer Italia S.r.l.\nProduttore: Pfizer Manufacturing" =
      { mah := some "Pfizer Italia S.r.l.",
        manufacturer := some "Pfizer Manufacturing" } ∧
    Index1.extract_details_from_text
        "Titolare AIC: Pfizer Italia S.r.l.\nProduttore: Pfizer Manufacturing" =
      ("Pfizer Italia S.r.l.", "Pfizer Manufacturing") := by
  constructor
  · rfl
  · rfl

/-- Claim C8: field extraction over a fixed input is deterministic; the
embedded extractors are pure functions of the text and the resolved
container alone, mirroring that the source functions read no mutable state,
so two runs on equal inputs give equal results. -/
theorem claim_C8_deterministic (text : String) (cont : Container)
    (vs : List String) :
    PdfUtils.extract_from_pdf text = PdfUtils.extract_from_pdf text ∧
    Index1.extract_details_from_text text = Index1.extract_details_from_text text ∧
    AifaScraper.extract_ma_and_manufacturer_from_pdf text =
      AifaScraper.extract_ma_and_manufacturer_from_pdf text ∧
    RplPoland.extract_value_by_label cont vs =
      RplPoland.extract_value_by_label cont vs ∧
    DummyRpl.extract_by_label_in_container cont vs =
      DummyRpl.extract_by_label_in_container cont vs :=
  ⟨rfl, rfl, rfl, rfl, rfl⟩

/-- Claim C9: pdf_utils.extract_from_pdf extracts the two fields
independently: each field equals its own pattern scan, and when every
pattern of one field fails to match anywhere that field is None regardless
of the other field; no error is possible, the function is total. -/
theorem claim_C9_fields_independent (text : String) :
    (PdfUtils.extract_from_pdf text).mah =
      firstCapture pyStrip PdfUtils.patterns_mah 1 text ∧
    (PdfUtils.extract_from_pdf text).manufacturer =
      firstCapture pyStrip PdfUtils.patterns_man 1 text ∧
    (PdfUtils.patterns_man.all (fun p => (reSearch p text.data).isNone) = true →
      (PdfUtils.extract_from_pdf text).manufacturer = none) ∧
    (PdfUtils.patterns_mah.all (fun p => (reSearch p text.data).isNone) = true →
      (PdfUtils.extract_from_pdf text).mah = none) :=
  ⟨rfl, rfl, fun h => firstCapture_eq_none h, fun h => firstCapture_eq_none h⟩

/-- Witness for claim C9: on a text carrying only a Titolare AIC line, every
manufacturer pattern misses, the manufacturer is None, and the MA holder
still resolves. -/
theorem claim_C9_witness :
    (PdfUtils.extract_from_pdf "Titolare AIC: Pfizer Italia S.r.l.").manufacturer
      = none ∧
    (PdfUtils.extract_from_pdf "Titolare AIC: Pfizer Italia S.r.l.").mah =
      some "Pfizer Italia S.r.l." :=
  ⟨(claim_C9_fields_independent "Titolare AIC: Pfizer Italia S.r.l.").2.2.1
      (by rfl),
   by rfl⟩

/-- A present value of the primary-then-fallback field scan is a stripped
capture of a newline-free-bodied pattern, hence single-line and trimmed. -/
theorem fieldWithFallback_props {pats : List RE} {fb : RE}
    (hall : pats.all grpsNoNl = true) (hfb : grpsNoNl fb = true)
    {text s : String} (h : AifaScraper.fieldWithFallback pats fb text = some s) :
    (∀ c ∈ s.data, c ≠ '\n') ∧ pyStrip s = s := by
  unfold AifaScraper.fieldWithFallback at h
  split at h
  · cases hs : reSearch fb text.data with
    | some caps =>
      rw [hs] at h
      injection h with h
      subst h
      exact strip_capture_props hfb hs
    | none =>
      rw [hs] at h
      exact firstCapture_strip_props hall h
  · exact firstCapture_strip_props hall h

/-- Claim C10: whenever the PDF field extractors return a string for the MA
holder or the manufacturer, that string contains no newline and has no
leading or trailing whitespace; this holds for both fields of
pdf_utils.extract_from_pdf and both components of
aifa_scraper.extract_ma_and_manufacturer_from_pdf. -/
theorem claim_C10_single_line_trimmed (text s : String) :
    ((PdfUtils.extract_from_pdf text).mah = some s →
      (∀ c ∈ s.data, c ≠ '\n') ∧ pyStrip s = s) ∧
    ((PdfUtils.extract_from_pdf text).manufacturer = some s →
      (∀ c ∈ s.data, c ≠ '\n') ∧ pyStrip s = s) ∧
    ((AifaScraper.extract_ma_and_manufacturer_from_pdf text).1 = some s →
      (∀ c ∈ s.data, c ≠ '\n') ∧ pyStrip s = s) ∧
    ((AifaScraper.extract_ma_and_manufacturer_from_pdf text).2 = some s →
      (∀ c ∈ s.data, c ≠ '\n') ∧ pyStrip s = s) := by
  refine ⟨?_, ?_, ?_, ?_⟩
  · intro h
    exact firstCapture_strip_props pdfUtils_mah_grps h
  · intro h
    exact firstCapture_strip_props pdfUtils_man_grps h
  · intro h
    unfold AifaScraper.extract_ma_and_manufacturer_from_pdf at h
    split at h
    · simp at h
    · exact fieldWithFallback_props aifa_mah_grps aifa_mah_fb_grps h
  · intro h
    unfold AifaScraper.extract_ma_and_manufacturer_from_pdf at h
    split at h
    · simp at h
    · exact fieldWithFallback_props aifa_manu_grps aifa_manu_fb_grps h

/-- Witness for claim C10: the MA holder extracted from the Pfizer scenario
text contains no newline and strips to itself. -/
theorem claim_C10_witness :
    pyStrip "Pfizer Italia S.r.l." = "Pfizer Italia S.r.l." ∧
    '\n' ∉ "Pfizer Italia S.r.l.".data := by
  have h := (claim_C10_single_line_trimmed
    "Titolare AIC: Pfizer Italia S.r.l.\nProduttore: Pfizer Manufacturing"
    "Pfizer Italia S.r.l.").1 (by rfl)
  exact ⟨h.2, fun hmem => h.1 '\n' hmem rfl⟩

/-- The rpl_poland extractor, with its lets unfolded: None on an empty
collection, else the deduplicated collection joined with the
blank-pipe-blank separator. -/
theorem rpl_extract_characterization (cont : Container) (vs : List String) :
    RplPoland.extract_value_by_label cont vs =
      (if (RplPoland.collectValues cont vs).isEmpty then none
       else some (pyJoin " | " (dedupFirstSeen (RplPoland.collectValues cont vs)))) :=
  rfl

/-- The dummy_rpl_html extractor, with its lets unfolded: None on an empty
collection or an empty cleaned-block list, else the cleaned blocks joined
with the double-pipe separator, with no deduplication. -/
theorem dummy_extract_characterization (cont : Container) (variants : List String) :
    DummyRpl.extract_by_label_in_container cont variants =
      (if (DummyRpl.collectValues cont (variants.map pyLower)).isEmpty then none
       else if (DummyRpl.cleanedBlocks (variants.map pyLower)
           (DummyRpl.collectValues cont (variants.map pyLower))).isEmpty then none
       else some (pyJoin " || " (DummyRpl.cleanedBlocks (variants.map pyLower)
           (DummyRpl.collectValues cont (variants.map pyLower))))) :=
  rfl

/-- Claim C4: label-proximity extraction never fabricates a value. When no
element text of the container contains a configured synonym under the
implementation's own test, both extractors return None; and the
dummy_rpl_html extractor also returns None whenever no label hit yields a
non-empty post-cleaned value. -/
theorem claim_C4_no_fabrication (cont : Container) (variants : List String) :
    ((∀ el ∈ cont.allElems,
        variants.any (fun v => strContains (pyLower (pyStrip el.innerText)) v)
          = false) →
      RplPoland.extract_value_by_label cont variants = none) ∧
    ((∀ el ∈ cont.allElems,
        (variants.map pyLower).any
          (fun v => strContains (pyLower (pyStrip el.innerText)) v) = false) →
      DummyRpl.extract_by_label_in_container cont variants = none) ∧
    ((∀ v ∈ DummyRpl.collectValues cont (variants.map pyLower),
        DummyRpl.goodParts (variants.map pyLower) v = []) →
      DummyRpl.extract_by_label_in_container cont variants = none) := by
  refine ⟨?_, ?_, ?_⟩
  · intro h
    rw [rpl_extract_characterization,
      RplPoland_collectValues_eq_nil cont variants h]
    rfl
  · intro h
    rw [dummy_extract_characterization,
      DummyRpl_collectValues_eq_nil cont (variants.map pyLower) h]
    rfl
  · intro h
    rw [dummy_extract_characterization]
    have hout : DummyRpl.cleanedBlocks (variants.map pyLower)
        (DummyRpl.collectValues cont (variants.map pyLower)) = [] := by
      unfold DummyRpl.cleanedBlocks
      exact dummy_out_aux (variants.map pyLower) _ [] h
    rw [hout]
    by_cases hv : (DummyRpl.collectValues cont (variants.map pyLower)).isEmpty = true
    · rw [if_pos hv]
    · rw [if_neg hv]
      rfl

/-- Witness for claim C4: a container whose only text is hello world yields
None from both extractors for the Titolare synonym set. -/
theorem claim_C4_witness :
    RplPoland.extract_value_by_label contPlain ["titolare"] = none ∧
    DummyRpl.extract_by_label_in_container contPlain ["titolare"] = none :=
  ⟨(claim_C4_no_fabrication contPlain ["titolare"]).1 (by decide),
   (claim_C4_no_fabrication contPlain ["titolare"]).2.1 (by decide)⟩

/-- Claim C5: pagination terminates. If the loop runs cleanly up to page K
and page K's next control is absent or reports disabled, exactly pages one
through K are processed, for every fuel bound of at least K, so the loop
does not run forever; and a non-zero maximum page count m bounds the number
of processed pages by m whatever the controls report. -/
theorem claim_C5_pagination_terminates :
    (∀ (env : Nat → Rpl.PageEnv) (mp : Option Nat) (K fuel : Nat),
      1 ≤ K → K ≤ fuel →
      (∀ j, j < K → 1 ≤ j → Rpl.stopAfter (env j) (j + 1) mp = false) →
      ((env K).nextBtn = none ∨ Rpl.is_disabled (env K).nextBtn = true) →
      Rpl.run_scrape_pages env mp fuel 1 = List.range' 1 K) ∧
    (∀ (env : Nat → Rpl.PageEnv) (m fuel : Nat), 1 ≤ m →
      (Rpl.run_scrape_pages env (some m) fuel 1).length ≤ m) := by
  constructor
  · intro env mp K fuel hK hfuel hrun hdis
    have hstop : Rpl.stopAfter (env K) (K + 1) mp = true := by
      unfold Rpl.stopAfter
      rcases hdis with hb | hd
      · rw [hb]
        simp
      · rw [hd]
        simp
    have hres := run_scrape_pages_stop env mp fuel 1 K hK (by omega)
      (fun j hj1 hj2 => hrun j hj2 hj1) hstop
    rw [hres]
    congr 1
    omega
  · intro env m fuel hm
    have := run_scrape_pages_maxlen env m fuel 1 (Nat.le_refl 1) hm
    omega

/-- Witness for claim C5: with the next control disabled from page three on,
the loop processes exactly pages one to three and stops; with a maximum of
two pages it processes at most two. -/
theorem claim_C5_witness :
    Rpl.run_scrape_pages pageEnvDisabled3 none 10 1 = [1, 2, 3] ∧
    (Rpl.run_scrape_pages pageEnvDisabled3 (some 2) 10 1).length ≤ 2 := by
  constructor
  · have h := claim_C5_pagination_terminates.1 pageEnvDisabled3 none 3 10
      (by omega) (by omega) (by decide) (Or.inr (by rfl))
    rw [h]
    rfl
  · exact claim_C5_pagination_terminates.2 pageEnvDisabled3 2 10 (by omega)

/-- Counterexample for claim C6: in dummy_rpl_html, two label hits with the
same value text produce that text twice joined with the double-pipe
separator, so exact-text repeats are not deduplicated; and in rpl_poland,
two independent matches are joined with the single-pipe separator, not the
double-pipe one. -/
theorem claim_C6_counterexample :
    DummyRpl.extract_by_label_in_container contDupDummy ["wytwórca"] =
      some "Acme || Acme" ∧
    RplPoland.extract_value_by_label contTwoRpl ["wytwórca"] =
      some "Acme | Beta" := by
  constructor
  · rfl
  · rfl

/-- Claim C6 amended: rpl_poland's extractor deduplicates exact-text repeats
preserving first-seen order (the joined list is duplicate-free and a
sublist of the collected values) and joins all independent matches with the
blank-pipe-blank separator; dummy_rpl_html's extractor joins the fragments
of one match with the blank-pipe-blank separator and independent matches
with the double-pipe separator, without deduplicating repeats. -/
theorem claim_C6_amended (cont : Container) (variants : List String) :
    (∀ s, RplPoland.extract_value_by_label cont variants = some s →
      s = pyJoin " | " (dedupFirstSeen (RplPoland.collectValues cont variants)) ∧
      (dedupFirstSeen (RplPoland.collectValues cont variants)).Nodup ∧
      (dedupFirstSeen (RplPoland.collectValues cont variants)).Sublist
        (RplPoland.collectValues cont variants)) ∧
    (∀ s, DummyRpl.extract_by_label_in_container cont variants = some s →
      s = pyJoin " || " (DummyRpl.cleanedBlocks (variants.map pyLower)
        (DummyRpl.collectValues cont (variants.map pyLower))) ∧
      ∀ b ∈ DummyRpl.cleanedBlocks (variants.map pyLower)
          (DummyRpl.collectValues cont (variants.map pyLower)),
        ∃ v ∈ DummyRpl.collectValues cont (variants.map pyLower),
          b = pyJoin " | " (DummyRpl.goodParts (variants.map pyLower) v) ∧
          DummyRpl.goodParts (variants.map pyLower) v ≠ []) := by
  constructor
  · intro s hs
    rw [rpl_extract_characterization] at hs
    by_cases hv : (RplPoland.collectValues cont variants).isEmpty = true
    · rw [if_pos hv] at hs
      exact absurd hs (by simp)
    · rw [if_neg hv] at hs
      injection hs with hs
      exact ⟨hs.symm, dedupFirstSeen_nodup _, dedupFirstSeen_sublist _⟩
  · intro s hs
    rw [dummy_extract_characterization] at hs
    by_cases hv : (DummyRpl.collectValues cont (variants.map pyLower)).isEmpty = true
    · rw [if_pos hv] at hs
      exact absurd hs (by simp)
    · rw [if_neg hv] at hs
      by_cases ho : (DummyRpl.cleanedBlocks (variants.map pyLower)
          (DummyRpl.collectValues cont (variants.map pyLower))).isEmpty = true
      · rw [if_pos ho] at hs
        exact absurd hs (by simp)
      · rw [if_neg ho] at hs
        injection hs with hs
        exact ⟨hs.symm, cleanedBlocks_shape _ _⟩

/-- Witness for the amended claim C6: on the two-match container the
rpl_poland result is the single-pipe join of the duplicate-free collected
values. -/
theorem claim_C6_amended_witness :
    pyJoin " | " (dedupFirstSeen (RplPoland.collectValues contTwoRpl ["wytwórca"]))
      = "Acme | Beta" ∧
    (dedupFirstSeen (RplPoland.collectValues contTwoRpl ["wytwórca"])).Nodup := by
  have h := (claim_C6_amended contTwoRpl ["wytwórca"]).1 "Acme | Beta" (by rfl)
  exact ⟨h.1.symm, h.2.1⟩

/-- Counterexample for claim C1: in aifa_scrapper_v2's unbounded loop, a
listing that counts one card initially and two cards at later
re-enumerations (no re-enumeration yields fewer) makes the loop visit
indices zero and one, not exactly the indices below the initial count. -/
theorem claim_C1_counterexample :
    enumGrow 0 = 1 ∧
    (List.range 10).all (fun j => decide (enumGrow 0 ≤ enumGrow j)) = true ∧
    AifaV2.iterate_visited enumGrow (fun _ => true) (fun _ => true) 10 0 = [0, 1] ∧
    AifaV2.iterate_visited enumGrow (fun _ => true) (fun _ => true) 10 0 ≠
      List.range (enumGrow 0) := by
  refine ⟨rfl, by decide, rfl, by decide⟩

/-- Claim C1 amended: index1's loop is bounded by the initial count N, so
when no re-enumeration counts fewer than N items exactly indices zero
through N minus one are visited, and a shrink to M items detected at index
M stops the loop there without error, visiting exactly the indices below M;
aifa_scrapper_v2's unbounded loop has the same shrink-stop behaviour (for
every sufficient fuel, so it does not run forever), but its traversal is
not capped by the initial count, so the exactly-N property needs the
re-enumerations never to exceed N either. -/
theorem claim_C1_amended :
    (∀ (enum : Nat → Nat) (N : Nat), (∀ i, i < N → N ≤ enum i) →
      Index1.run_scraper_visited enum N 0 = List.range N) ∧
    (∀ (enum : Nat → Nat) (N M : Nat), M < N → (∀ i, i < M → i < enum i) →
      enum M ≤ M → Index1.run_scraper_visited enum N 0 = List.range M) ∧
    (∀ (enum : Nat → Nat) (ck gb : Nat → Bool) (M fuel : Nat), M < fuel →
      (∀ i, i < M → i < enum i) → (∀ i, i < M → (!ck i || gb i) = true) →
      enum M ≤ M →
      AifaV2.iterate_visited enum ck gb fuel 0 = List.range M) := by
  refine ⟨?_, ?_, ?_⟩
  · intro enum N h
    rw [List.range_eq_range']
    exact run_scraper_visited_full enum N 0
      (fun i h1 h2 => lt_of_lt_of_le (show i < N by omega) (h i (by omega)))
  · intro enum N M hMN h hM
    rw [List.range_eq_range']
    have hres := run_scraper_visited_shrink enum N 0 M (by omega) (by omega)
      (fun i _ h2 => h i h2) hM
    rw [hres]
    congr 1
  · intro enum ck gb M fuel hMf h hc hM
    rw [List.range_eq_range']
    have hres := iterate_visited_stop enum ck gb fuel 0 M (by omega) (by omega)
      (fun i _ h2 => h i h2) (fun i _ h2 => hc i h2) hM
    rw [hres]
    congr 1

/-- Witness for the amended claim C1: a steady three-card listing is visited
at indices zero to two; a five-card listing shrinking to three is visited at
exactly indices zero to two, in both loop variants. -/
theorem claim_C1_amended_witness :
    Index1.run_scraper_visited (fun _ => 3) 3 0 = [0, 1, 2] ∧
    Index1.run_scraper_visited enumShrink 5 0 = [0, 1, 2] ∧
    AifaV2.iterate_visited enumShrink (fun _ => true) (fun _ => true) 10 0 =
      [0, 1, 2] := by
  refine ⟨?_, ?_, ?_⟩
  · have h := claim_C1_amended.1 (fun _ => 3) 3 (fun i _ => Nat.le_refl 3)
    rw [h]
    rfl
  · have h := claim_C1_amended.2.1 enumShrink 5 3 (by omega) (by decide) (by decide)
    rw [h]
    rfl
  · have h := claim_C1_amended.2.2 enumShrink (fun _ => true) (fun _ => true) 3 10
      (by omega) (by decide) (by decide) (by decide)
    rw [h]
    rfl

/-- Claim C2: for every item index at which the card click fails or the
detail page never reports ready, no row is appended and the traversal
continues: over a steady listing of N cards, the appended rows' indices are
exactly the indices below N whose click succeeded and whose detail page
became ready. -/
theorem claim_C2_skip_failed_open (substance : String) (enum : Nat → Nat)
    (envs : Nat → Index1.ItemEnv) (N : Nat)
    (hN : ∀ i, i < N → N ≤ enum i) :
    (Index1.run_scraper_rows substance enum envs N).map Prod.fst =
      (List.range N).filter (fun i => (envs i).clickOk && (envs i).detailReady) := by
  unfold Index1.run_scraper_rows
  rw [List.range_eq_range']
  exact run_scraper_loop_rows substance enum envs N 0
    (fun i h1 h2 => lt_of_lt_of_le (show i < N by omega) (hN i (by omega)))

/-- Witness for claim C2: five items with only the open of index three
failing emit rows exactly for indices zero, one, two and four. -/
theorem claim_C2_witness :
    (Index1.run_scraper_rows "Linezolid" (fun _ => 5) envScenario5 5).map Prod.fst
      = [0, 1, 2, 4] := by
  have h := claim_C2_skip_failed_open "Linezolid" (fun _ => 5) envScenario5 5
    (fun i _ => Nat.le_refl 5)
  rw [h]
  rfl

/-- index1's loop body for one item, with its lets unfolded. -/
theorem processItem_characterization (substance : String) (idx : Nat)
    (env : Index1.ItemEnv) :
    Index1.processItem substance idx env =
      (if !env.clickOk then none
       else if !env.detailReady then none
       else some
         { search_substance := substance,
           product_name := if env.h1Visible then pyStrip env.h1Text else "(no name)",
           ma_holder :=
             if Index1.html_ma_holder env != "Not Found" then Index1.html_ma_holder env
             else (Index1.pdf_side env.pdfBtnVisible env.pdfDownloadOk
               env.pdfParseOk env.pdfErr env.pdfText substance idx).2.1,
           manufacturer := (Index1.pdf_side env.pdfBtnVisible env.pdfDownloadOk
             env.pdfParseOk env.pdfErr env.pdfText substance idx).2.2,
           pdf_file := (Index1.pdf_side env.pdfBtnVisible env.pdfDownloadOk
             env.pdfParseOk env.pdfErr env.pdfText substance idx).1 }) :=
  rfl

/-- aifa_scrapper_v2's per-item field pair, with its lets unfolded. -/
theorem item_fields_characterization (html : String) (ts : List String) :
    AifaV2.item_fields html ts =
      (AifaV2.extract_ma_holder_from_detail html,
       if !optTruthy (AifaV2.manufacturerFromPdfs ts) then
         match AifaV2.produttoreFromHtml html with
         | some v => some v
         | none => AifaV2.manufacturerFromPdfs ts
       else AifaV2.manufacturerFromPdfs ts) :=
  rfl

/-- Counterexample for claim C3: in aifa_scrapper_v2, an item with no
downloaded PDF whose detail HTML names a Produttore gets that HTML value as
its manufacturer, so the manufacturer is taken from the detail page's HTML;
and an item whose PDF names a Titolare while the HTML names none gets no MA
holder, so the MA holder does not fall back to the PDF-derived value. -/
theorem claim_C3_counterexample :
    (AifaV2.item_fields "Produttore: ACME Labs" []).2 = some "ACME Labs" ∧
    (AifaV2.extract_from_pdf "Titolare: ACME Pharma Oy, Finland").1 =
      some "ACME Pharma Oy, Finland" ∧
    (AifaV2.item_fields "" ["Titolare: ACME Pharma Oy, Finland"]).1 = none := by
  refine ⟨?_, ?_, ?_⟩
  · rfl
  · rfl
  · rfl

/-- Claim C3 amended: in index1, the emitted row's MA holder is the
HTML-derived value unless that is the not-found marker, in which case it is
the PDF-side value (itself a marker when no PDF was fetched), and the
manufacturer is always the PDF-side value, which is computed from the
PDF-related session answers alone and so never comes from the detail HTML.
In aifa_scrapper_v2, the MA holder comes from the detail HTML only (no PDF
fallback), and the manufacturer is the first truthy PDF-derived value if
any, otherwise the HTML Produttore scan, otherwise nothing. -/
theorem claim_C3_amended :
    (∀ (substance : String) (idx : Nat) (env : Index1.ItemEnv)
        (row : Index1.ResultRow),
      Index1.processItem substance idx env = some row →
      row.ma_holder =
        (if Index1.html_ma_holder env != "Not Found" then Index1.html_ma_holder env
         else (Index1.pdf_side env.pdfBtnVisible env.pdfDownloadOk env.pdfParseOk
           env.pdfErr env.pdfText substance idx).2.1) ∧
      row.manufacturer = (Index1.pdf_side env.pdfBtnVisible env.pdfDownloadOk
        env.pdfParseOk env.pdfErr env.pdfText substance idx).2.2 ∧
      (env.pdfBtnVisible = false → row.manufacturer = "Not Found in PDF")) ∧
    (∀ (html : String) (ts : List String),
      (AifaV2.item_fields html ts).1 = AifaV2.extract_ma_holder_from_detail html ∧
      (optTruthy (AifaV2.manufacturerFromPdfs ts) = true →
        (AifaV2.item_fields html ts).2 = AifaV2.manufacturerFromPdfs ts) ∧
      (optTruthy (AifaV2.manufacturerFromPdfs ts) = false →
        (AifaV2.item_fields html ts).2 =
          (match AifaV2.produttoreFromHtml html with
           | some v => some v
           | none => AifaV2.manufacturerFromPdfs ts))) := by
  constructor
  · intro substance idx env row h
    rw [processItem_characterization] at h
    cases hck : env.clickOk with
    | false =>
      rw [hck] at h
      simp at h
    | true =>
      rw [hck] at h
      simp only [Bool.not_true, Bool.false_eq_true, if_false] at h
      cases hdr : env.detailReady with
      | false =>
        rw [hdr] at h
        simp at h
      | true =>
        rw [hdr] at h
        simp only [Bool.not_true, Bool.false_eq_true, if_false] at h
        injection h with h
        subst h
        refine ⟨rfl, rfl, ?_⟩
        intro hb
        show (Index1.pdf_side env.pdfBtnVisible env.pdfDownloadOk env.pdfParseOk
          env.pdfErr env.pdfText substance idx).2.2 = "Not Found in PDF"
        rw [hb]
        rfl
  · intro html ts
    refine ⟨rfl, ?_, ?_⟩
    · intro hm
      rw [item_fields_characterization]
      show (if !optTruthy (AifaV2.manufacturerFromPdfs ts) then _ else _) = _
      rw [hm]
      rfl
    · intro hm
      rw [item_fields_characterization]
      show (if !optTruthy (AifaV2.manufacturerFromPdfs ts) then _ else _) = _
      rw [hm]
      rfl

/-- Witness for the amended claim C3: the full-session answer yields the row
whose MA holder is the HTML-derived Pfizer Italia and whose manufacturer is
the PDF-derived Pfizer Manufacturing, and the PDF-less Produttore page gets
its manufacturer from the HTML scan. -/
theorem claim_C3_amended_witness :
    rowFull.ma_holder =
      (if Index1.html_ma_holder envItemFull != "Not Found"
       then Index1.html_ma_holder envItemFull
       else (Index1.pdf_side envItemFull.pdfBtnVisible envItemFull.pdfDownloadOk
         envItemFull.pdfParseOk envItemFull.pdfErr envItemFull.pdfText
         "Linezolid" 0).2.1) ∧
    rowFull.manufacturer =
      (Index1.pdf_side envItemFull.pdfBtnVisible envItemFull.pdfDownloadOk
        envItemFull.pdfParseOk envItemFull.pdfErr envItemFull.pdfText
        "Linezolid" 0).2.2 ∧
    (AifaV2.item_fields "Produttore: ACME Labs" []).2 =
      (match AifaV2.produttoreFromHtml "Produttore: ACME Labs" with
       | some v => some v
       | none => AifaV2.manufacturerFromPdfs []) := by
  have h1 := claim_C3_amended.1 "Linezolid" 0 envItemFull rowFull (by rfl)
  have h2 := (claim_C3_amended.2 "Produttore: ACME Labs" []).2.2 (by rfl)
  exact ⟨h1.1, h1.2.1, h2⟩
